import Mathlib

/-!
# PBB target budget calculator: a shallow embedding of `src/App.js`

The development models the allocation engine of the application: the quartile
normalizer (`normalizeQuartile`), the aggregation loop of `handleFileUpload`,
the calculation of `calculateTargetBudgets`, and the fund progress ledger
(`saveFundProgress`, `clearAllProgress`).

Modelling conventions.

* A finite JavaScript number is an exact rational (`ℚ`); a malformed or absent
  amount is the value `0`, as in `parseFloat(x) || 0`.  A value that the code may
  turn into something else than a number is a `JSVal`: a number, `NaN`, or a text.
  The infinities are not represented.  Rounding of IEEE doubles is modelled apart
  (`toDouble`, `addDouble`), for the one claim that depends on it.
* A JavaScript object used as a dictionary is a list of (key, value) pairs in
  insertion order (`Dict`), its own properties.  A read `obj[k]` that finds no own
  property finds the member that every object literal inherits from
  `Object.prototype` when `k` is one of `inheritedNames` (`Dict.read`).  What the
  code writes into such a member itself (lines 185-187, for a department named
  like one) is not followed.  The order in which JavaScript enumerates
  integer-like keys is not modelled; the development only sums or searches
  dictionary values.
* A spreadsheet cell holding a label is a `Label`: empty, text, or an integer.
* `new Date().toISOString()` is an argument `now` of the operation that reads
  the clock.
-/

namespace PBB

/-! ## Strings -/

/-- Lower-casing of `String.prototype.toLowerCase`, on the ASCII letters.  The
patterns of `normalizeQuartile` are ASCII, and the lower case of a character
outside ASCII holds none of their letters in a place where a pattern could use it
(U+0130 gives "i" followed by U+0307, U+212A gives "k"), so the matches of the
patterns are those of the full conversion. -/
def toLowerCase (s : String) : String := ⟨s.data.map Char.toLower⟩

/-- The code points that `String.prototype.trim` removes: the white space and
line terminators of ECMAScript. -/
def trimmedCodes : List Nat :=
  [0x9, 0xA, 0xB, 0xC, 0xD, 0x20, 0xA0, 0x1680, 0x2000, 0x2001, 0x2002, 0x2003, 0x2004,
   0x2005, 0x2006, 0x2007, 0x2008, 0x2009, 0x200A, 0x2028, 0x2029, 0x202F, 0x205F, 0x3000,
   0xFEFF]

/-- Whether `String.prototype.trim` removes the character. -/
def isTrimmed (c : Char) : Bool := trimmedCodes.contains c.toNat

/-- Removal of leading and trailing white space from a list of characters. -/
def trimChars (l : List Char) : List Char :=
  ((l.dropWhile isTrimmed).reverse.dropWhile isTrimmed).reverse

/-- Trimming of `String.prototype.trim`. -/
def trim (s : String) : String := ⟨trimChars s.data⟩

/-- Whether `pat` occurs as a contiguous block of the list of characters. -/
def occursIn (pat : List Char) : List Char → Bool
  | [] => pat.isEmpty
  | c :: cs => pat.isPrefixOf (c :: cs) || occursIn pat cs

/-- Substring test of `String.prototype.includes`. -/
def includes (s pat : String) : Bool := occursIn pat.data s.data

/-! ## Labels and the quartile normalizer -/

/-- The value of a label cell: `null` (an empty cell, `undefined` or `null`),
a text, or an integer number. -/
inductive Label where
  | null
  | text (s : String)
  | number (n : Int)
  deriving DecidableEq

/-- JavaScript falsiness `!v`: `null`, the empty string and the number `0`. -/
def Label.falsy : Label → Bool
  | .null => true
  | .text s => s == ""
  | .number n => n == 0

/-- Text of a label, `v.toString()` and the conversion to a property key.
Integers print in decimal (JavaScript switches to exponent form from `1e21`,
which contains no letter of any pattern used below either). -/
def Label.toText : Label → String
  | .null => "null"
  | .text s => s
  | .number n => toString n

/-- The function `normalizeQuartile` of `src/App.js`, lines 31-43. -/
def normalizeQuartile (quartile : Label) : Label :=
  if quartile.falsy then Label.null
  else
    let q := trim (toLowerCase quartile.toText)
    if q == "1" || includes q "most aligned" then Label.text "1st Quartile"
    else if q == "2" || includes q "more aligned" then Label.text "2nd Quartile"
    else if q == "3" || includes q "less aligned" then Label.text "3rd Quartile"
    else if q == "4" || includes q "least aligned" then Label.text "4th Quartile"
    else if includes q "1st" then Label.text "1st Quartile"
    else if includes q "2nd" then Label.text "2nd Quartile"
    else if includes q "3rd" then Label.text "3rd Quartile"
    else if includes q "4th" then Label.text "4th Quartile"
    else quartile

/-- The four canonical quartile identifiers. -/
def canonicalQuartiles : List String :=
  ["1st Quartile", "2nd Quartile", "3rd Quartile", "4th Quartile"]

/-- A rule of the specification: an exact text, or a phrase to be contained. -/
inductive Rule where
  | exact (s : String)
  | phrase (s : String)

/-- Whether a rule matches the lower-cased, trimmed text `q`. -/
def Rule.test (q : String) : Rule → Bool
  | .exact s => q == s
  | .phrase s => includes q s

/-- The rule list of the specification, in its order: the exact numeric codes,
the alignment phrases, the ordinal abbreviations. -/
def ruleList : List (Rule × String) :=
  [ (Rule.exact "1", "1st Quartile"), (Rule.exact "2", "2nd Quartile"),
    (Rule.exact "3", "3rd Quartile"), (Rule.exact "4", "4th Quartile"),
    (Rule.phrase "most aligned", "1st Quartile"), (Rule.phrase "more aligned", "2nd Quartile"),
    (Rule.phrase "less aligned", "3rd Quartile"), (Rule.phrase "least aligned", "4th Quartile"),
    (Rule.phrase "1st", "1st Quartile"), (Rule.phrase "2nd", "2nd Quartile"),
    (Rule.phrase "3rd", "3rd Quartile"), (Rule.phrase "4th", "4th Quartile") ]

/-- First match of the rule list on `q`; the input itself when none matches. -/
def firstMatch (q : String) (input : Label) : Label :=
  match ruleList.find? (fun r => r.1.test q) with
  | some r => Label.text r.2
  | none => input

/-- The normalizer as the specification words it: an absent or empty input
gives `null`, every other input goes through the rule list. -/
def normalizeQuartileSpec (quartile : Label) : Label :=
  if quartile = Label.null ∨ quartile = Label.text "" then Label.null
  else firstMatch (trim (toLowerCase quartile.toText)) quartile

/-- The specification's normalizer with the emptiness test of the code: every
falsy input (absent, the empty text, the number zero) gives `null`. -/
def normalizeQuartileFalsy (quartile : Label) : Label :=
  if quartile.falsy then Label.null
  else firstMatch (trim (toLowerCase quartile.toText)) quartile

/-! ## Values -/

/-- A JavaScript value in a place where the code expects a number: a finite
number, `NaN`, or `text`, which stands for a text that is no numeral or for an
object (a function, `Object.prototype`), whose conversion to a number is `NaN`
and which `+` turns into a text. -/
inductive JSVal where
  | num (q : ℚ)
  | nan
  | text
  deriving DecidableEq

instance JSVal.coeRat : Coe ℚ JSVal := ⟨JSVal.num⟩

/-- The operator `+`: the sum of two numbers, a text when an operand is a text
or an object (concatenation), `NaN` otherwise. -/
def JSVal.add : JSVal → JSVal → JSVal
  | .num a, .num b => .num (a + b)
  | .text, _ => .text
  | _, .text => .text
  | _, _ => .nan

/-- The operator `-`; an operand that is no number makes the result `NaN`. -/
def JSVal.sub : JSVal → JSVal → JSVal
  | .num a, .num b => .num (a - b)
  | _, _ => .nan

/-- The operator `*`; an operand that is no number makes the result `NaN`. -/
def JSVal.mul : JSVal → JSVal → JSVal
  | .num a, .num b => .num (a * b)
  | _, _ => .nan

/-- The operator `/`, used by the code with a non-zero divisor only; an operand
that is no number makes the result `NaN`. -/
def JSVal.div : JSVal → JSVal → JSVal
  | .num a, .num b => .num (a / b)
  | _, _ => .nan

/-- Unary minus. -/
def JSVal.neg : JSVal → JSVal
  | .num a => .num (-a)
  | _ => .nan

/-- The function `Math.max` of two arguments. -/
def JSVal.max : JSVal → JSVal → JSVal
  | .num a, .num b => .num (Max.max a b)
  | _, _ => .nan

/-- The comparison `<` after conversion to numbers: false when an operand is
`NaN` or converts to it. -/
def JSVal.lt : JSVal → JSVal → Prop
  | .num a, .num b => a < b
  | _, _ => False

/-- The comparison `<=` after conversion to numbers. -/
def JSVal.le : JSVal → JSVal → Prop
  | .num a, .num b => a ≤ b
  | _, _ => False

/-- Truthiness: a non-zero number, a text that is not empty, an object. -/
def JSVal.truthy : JSVal → Bool
  | .num q => q ≠ 0
  | .nan => false
  | .text => true

instance JSVal.instAdd : Add JSVal := ⟨JSVal.add⟩
instance JSVal.instSub : Sub JSVal := ⟨JSVal.sub⟩
instance JSVal.instMul : Mul JSVal := ⟨JSVal.mul⟩
instance JSVal.instDiv : Div JSVal := ⟨JSVal.div⟩
instance JSVal.instNeg : Neg JSVal := ⟨JSVal.neg⟩
instance JSVal.instLT : LT JSVal := ⟨JSVal.lt⟩
instance JSVal.instLE : LE JSVal := ⟨JSVal.le⟩
instance JSVal.instZero : Zero JSVal := ⟨JSVal.num 0⟩
instance JSVal.instOne : One JSVal := ⟨JSVal.num 1⟩
instance JSVal.instNatCast : NatCast JSVal := ⟨fun n => JSVal.num n⟩

instance JSVal.decLt (a b : JSVal) : Decidable (a < b) :=
  match a, b with
  | .num x, .num y => inferInstanceAs (Decidable (x < y))
  | .num _, .nan => isFalse (fun h => h)
  | .num _, .text => isFalse (fun h => h)
  | .nan, _ => isFalse (fun h => h)
  | .text, _ => isFalse (fun h => h)

instance JSVal.decLe (a b : JSVal) : Decidable (a ≤ b) :=
  match a, b with
  | .num x, .num y => inferInstanceAs (Decidable (x ≤ y))
  | .num _, .nan => isFalse (fun h => h)
  | .num _, .text => isFalse (fun h => h)
  | .nan, _ => isFalse (fun h => h)
  | .text, _ => isFalse (fun h => h)

instance JSVal.instAddCommMonoid : AddCommMonoid JSVal where
  add := JSVal.add
  zero := JSVal.num 0
  add_assoc := by
    intro a b c
    cases a <;> cases b <;> cases c <;>
      first | rfl | exact congrArg JSVal.num (add_assoc _ _ _)
  zero_add := by
    intro a
    cases a <;> first | rfl | exact congrArg JSVal.num (zero_add _)
  add_zero := by
    intro a
    cases a <;> first | rfl | exact congrArg JSVal.num (add_zero _)
  add_comm := by
    intro a b
    cases a <;> cases b <;> first | rfl | exact congrArg JSVal.num (add_comm _ _)
  nsmul := nsmulRec

/-! ## Dictionaries -/

/-- The property names that every object literal inherits from
`Object.prototype`. -/
def inheritedNames : List String :=
  ["constructor", "__defineGetter__", "__defineSetter__", "hasOwnProperty",
   "__lookupGetter__", "__lookupSetter__", "isPrototypeOf", "propertyIsEnumerable",
   "toString", "valueOf", "__proto__", "toLocaleString"]

/-- What a property read `obj[k]` of an object literal finds: an own property,
an inherited member (a function, or `Object.prototype` itself for "__proto__"),
or nothing (`undefined`). -/
inductive Member (α : Type) where
  | own (v : α)
  | inherited
  | undefined

/-- A JavaScript object used as a dictionary: own properties in insertion order. -/
abbrev Dict (α : Type) := List (String × α)

/-- The own property `k` of the object, if it has one. -/
def Dict.get {α : Type} (d : Dict α) (k : String) : Option α :=
  match d with
  | [] => none
  | (k1, v1) :: t => if k1 = k then some v1 else Dict.get t k

/-- Definition of the own property `k` with the value `v`: an existing key keeps
its place, a new key goes last. -/
def Dict.set {α : Type} (d : Dict α) (k : String) (v : α) : Dict α :=
  match d with
  | [] => [(k, v)]
  | (k1, v1) :: t => if k1 = k then (k, v) :: t else (k1, v1) :: Dict.set t k v

/-- Property read `d[k]`: the own property, else the inherited member. -/
def Dict.read {α : Type} (d : Dict α) (k : String) : Member α :=
  match d.get k with
  | some v => Member.own v
  | none => if k ∈ inheritedNames then Member.inherited else Member.undefined

/-- The values of a dictionary, `Object.values(d)`, in insertion order (JavaScript
lists integer-like keys first, in numeric order: see the conventions). -/
def Dict.values {α : Type} (d : Dict α) : List α := d.map Prod.snd

/-- Insertion into a JavaScript `Set`, kept as a list in insertion order. -/
def setAdd {α : Type} [DecidableEq α] (s : List α) (x : α) : List α :=
  if x ∈ s then s else s ++ [x]

/-! ## Detail records and program aggregates -/

/-- One row of the "Details" sheet, with the two cells read by position.
An absent text cell is `none`; an absent or malformed amount is `none`. -/
structure DetailRecord where
  program_id : String
  Department : Option String
  Program : Option String
  Fund : Option String
  Quartile : Label
  FinalScore : ℚ
  AcctType : String
  CostType : String
  TotalItemCost : Option ℚ

/-- Text that a template literal or a property key gives for a text cell. -/
def cellText : Option String → String
  | none => "undefined"
  | some s => s

/-- The expression `cell || dflt` on a text cell. -/
def cellOr (cell : Option String) (dflt : String) : String :=
  match cell with
  | none => dflt
  | some s => if s = "" then dflt else s

/-- A value of `programMap`, lines 80-92. -/
structure ProgramAggregate where
  program_id : String
  Program : String
  Department : String
  Quartile : Label
  FinalScore : ℚ
  Personnel : ℚ
  NonPersonnel : ℚ
  Revenue : ℚ
  Budget : ℚ
  funds : List (Option String)
  fundBreakdown : Dict JSVal
  deriving DecidableEq

/-- The key of line 77, the template literal of program, department and fund. -/
def recordKey (row : DetailRecord) : String :=
  row.program_id ++ "_" ++ cellText row.Department ++ "_" ++ cellText row.Fund

/-- The aggregate created for a key seen for the first time, lines 80-92. -/
def newAggregate (row : DetailRecord) : ProgramAggregate :=
  { program_id := row.program_id
    Program := cellOr row.Program "Unknown Program"
    Department := cellOr row.Department "N/A"
    Quartile := normalizeQuartile row.Quartile
    FinalScore := row.FinalScore
    Personnel := 0
    NonPersonnel := 0
    Revenue := 0
    Budget := 0
    funds := []
    fundBreakdown := [] }

/-- The amount of a record, `parseFloat(row['Total Item Cost']) || 0`. -/
def amountOf (row : DetailRecord) : ℚ := row.TotalItemCost.getD 0

/-- Lines 100-102: the breakdown entry of the fund is set to `0` when the read
`fundBreakdown[fundName]` is falsy.  An inherited member is truthy, so a fund
named like one gets no entry here. -/
def touchFund (fb : Dict JSVal) (fundName : String) : Dict JSVal :=
  match fb.read fundName with
  | Member.own v => if v.truthy then fb else fb.set fundName 0
  | Member.inherited => fb
  | Member.undefined => fb.set fundName 0

/-- Line 105, `fundBreakdown[fundName] += amount`: the value read, plus the
amount, is assigned.  An inherited member plus a number is a text; the assignment
creates an own property, except for "__proto__", whose setter ignores a value
that is no object. -/
def addToFund (fb : Dict JSVal) (fundName : String) (amount : ℚ) : Dict JSVal :=
  match fb.read fundName with
  | Member.own v => fb.set fundName (v + JSVal.num amount)
  | Member.inherited => if fundName = "__proto__" then fb else fb.set fundName JSVal.text
  | Member.undefined => fb.set fundName JSVal.nan

/-- Lines 95-113: the record is accumulated into the aggregate of its key, the
amounts and the sums being exact numbers; `accumulateDouble` is the same step on
the three number accumulators in double arithmetic. -/
def accumulate (p : ProgramAggregate) (row : DetailRecord) : ProgramAggregate :=
  let amount := amountOf row
  let fundName := cellText row.Fund
  let p1 := { p with funds := setAdd p.funds row.Fund
                     fundBreakdown := touchFund p.fundBreakdown fundName }
  if row.AcctType = "Expense" then
    let p2 := { p1 with Budget := p1.Budget + amount
                        fundBreakdown := addToFund p1.fundBreakdown fundName amount }
    if row.CostType = "Personnel" then { p2 with Personnel := p2.Personnel + amount }
    else if row.CostType = "NonPersonnel" then { p2 with NonPersonnel := p2.NonPersonnel + amount }
    else p2
  else if row.AcctType = "Revenue" then { p1 with Revenue := p1.Revenue + amount }
  else p1

/-- The body of the loop of lines 67-114 for one record, when it completes.  For
a key that is an inherited name the read of line 79 finds the inherited member,
no aggregate is created and line 99 throws: see `uploadThrows`. -/
def addRecord (programMap : Dict ProgramAggregate) (row : DetailRecord) : Dict ProgramAggregate :=
  if row.program_id = "" then programMap
  else
    let key := recordKey row
    let current := match programMap.get key with
      | some p => p
      | none => newAggregate row
    programMap.set key (accumulate current row)

/-- The dictionary `programMap` after the loop over all records. -/
def buildProgramMap (detailsData : List DetailRecord) : Dict ProgramAggregate :=
  detailsData.foldl addRecord []

/-- Whether the loop of lines 67-114 throws (a `TypeError` at line 99, caught at
line 123): some record with a program identifier has a key that is an inherited
name, such as "__proto__" for program "_", department "proto" and fund "_". -/
def uploadThrows (detailsData : List DetailRecord) : Bool :=
  detailsData.any (fun row => decide (row.program_id ≠ "" ∧ recordKey row ∈ inheritedNames))

/-- The program list stored by `handleFileUpload`, line 116, when the loop
completes (its `funds` is the array of the set; `primaryFund` is the derived field
below). -/
def aggregatePrograms (detailsData : List DetailRecord) : List ProgramAggregate :=
  (buildProgramMap detailsData).values

/-- The field `primaryFund` of line 119. -/
def primaryFund (p : ProgramAggregate) : Option (Option String) := p.funds.head?

/-- The sum of all values of a fund breakdown, with the operator `+`. -/
def breakdownTotal (fb : Dict JSVal) : JSVal := (fb.map Prod.snd).sum

/-! ## The allocation calculator -/

/-- The state `quartileChanges`: an object with exactly the four canonical keys. -/
structure QuartileChanges where
  q1 : ℚ
  q2 : ℚ
  q3 : ℚ
  q4 : ℚ
  deriving DecidableEq

/-- The own property of `quartileChanges` that the label names, if it names one;
the label is turned into a key. -/
def QuartileChanges.get (qc : QuartileChanges) (quartile : Label) : Option ℚ :=
  let k := quartile.toText
  if k = "1st Quartile" then some qc.q1
  else if k = "2nd Quartile" then some qc.q2
  else if k = "3rd Quartile" then some qc.q3
  else if k = "4th Quartile" then some qc.q4
  else none

/-- Line 146, `quartileChanges[quartile] || 0`: the own percentage; for a label
that names an inherited member, that member (an object, truthy); else `0`. -/
def quartileChangeOf (quartileChanges : QuartileChanges) (quartile : Label) : JSVal :=
  match quartileChanges.get quartile with
  | some p => JSVal.num p
  | none => if quartile.toText ∈ inheritedNames then JSVal.text else 0

/-- An element of `calculated`: the aggregate with the three computed fields. -/
structure AllocationResult where
  program : ProgramAggregate
  targetBudget : JSVal
  changeAmount : JSVal
  changePercent : JSVal
  deriving DecidableEq

/-- The callback of `validPrograms.map`, lines 142-154. -/
def allocate (quartileChanges : QuartileChanges) (protectRevenue : Bool)
    (program : ProgramAggregate) : AllocationResult :=
  let budget := program.Budget
  let revenue := program.Revenue
  let quartileChange := quartileChangeOf quartileChanges program.Quartile
  let targetBudget := JSVal.num budget * (1 + quartileChange / 100)
  let targetBudget :=
    if protectRevenue ∧ revenue > 0 ∧ quartileChange < 0 then
      JSVal.max targetBudget (JSVal.num revenue)
    else targetBudget
  let changeAmount := targetBudget - JSVal.num budget
  let changePercent := if budget ≠ 0 then changeAmount / JSVal.num budget * 100 else 0
  { program := program, targetBudget := targetBudget, changeAmount := changeAmount,
    changePercent := changePercent }

/-- The sentinel of the fund selector meaning that no fund filter is active. -/
def allFunds : String := "All Funds"

/-- Lines 134-137: the programs passing the fund filter. -/
def filterByFund (programs : List ProgramAggregate) (fund : String) : List ProgramAggregate :=
  if fund ≠ allFunds then programs.filter (fun p => p.funds.contains (some fund)) else programs

/-- Lines 138-141: the programs with a non-zero budget. -/
def validPrograms (filteredPrograms : List ProgramAggregate) : List ProgramAggregate :=
  filteredPrograms.filter (fun p => p.Budget ≠ 0)

/-- The array `calculated` of lines 134-154. -/
def calculatedPrograms (programs : List ProgramAggregate) (fund : String)
    (quartileChanges : QuartileChanges) (protectRevenue : Bool) : List AllocationResult :=
  (validPrograms (filterByFund programs fund)).map (allocate quartileChanges protectRevenue)

/-- The object `summary` of the results. -/
structure Summary where
  totalOriginal : ℚ
  totalTarget : JSVal
  totalChange : JSVal
  totalChangePercent : JSVal
  fundFilter : String
  deriving DecidableEq

/-- Lines 155-158 and 199. -/
def summarize (calculated : List AllocationResult) (fund : String) : Summary :=
  let totalOriginal := calculated.foldl (fun sum p => sum + p.program.Budget) 0
  let totalTarget := calculated.foldl (fun sum p => sum + p.targetBudget) 0
  let totalChange := totalTarget - JSVal.num totalOriginal
  let totalChangePercent :=
    if totalOriginal ≠ 0 then totalChange / JSVal.num totalOriginal * 100 else 0
  { totalOriginal := totalOriginal, totalTarget := totalTarget, totalChange := totalChange,
    totalChangePercent := totalChangePercent, fundFilter := fund }

/-- A value of `byQuartile`. -/
structure QuartileRollup where
  count : Nat
  originalBudget : ℚ
  targetBudget : JSVal
  change : JSVal
  changePercent : JSVal
  deriving DecidableEq

/-- Lines 161-170: the rollup of the quartile `q`. -/
def quartileRollup (calculated : List AllocationResult) (q : String) : QuartileRollup :=
  let quartilePrograms := calculated.filter (fun p => p.program.Quartile = Label.text q)
  let origBudget := quartilePrograms.foldl (fun sum p => sum + p.program.Budget) 0
  let targBudget := quartilePrograms.foldl (fun sum p => sum + p.targetBudget) 0
  { count := quartilePrograms.length
    originalBudget := origBudget
    targetBudget := targBudget
    change := targBudget - JSVal.num origBudget
    changePercent :=
      if origBudget ≠ 0 then (targBudget - JSVal.num origBudget) / JSVal.num origBudget * 100
      else 0 }

/-- Lines 159-171: the dictionary `byQuartile`. -/
def quartileRollups (calculated : List AllocationResult) : Dict QuartileRollup :=
  canonicalQuartiles.foldl (fun byQuartile q => byQuartile.set q (quartileRollup calculated q)) []

/-- A value of `departmentMap`. -/
structure DepartmentRollup where
  department : String
  accountingFundAllocation : JSVal
  otherFundAllocations : JSVal
  programRevenue : ℚ
  programCount : Nat
  deriving DecidableEq

/-- Lines 189-193: the breakdown entries of every fund but the selected one are
added to `otherFundAllocations`. -/
def addOtherFunds (fund : String) (d : DepartmentRollup) (fundBreakdown : Dict JSVal) :
    DepartmentRollup :=
  fundBreakdown.foldl
    (fun acc e => if e.1 ≠ fund then
        { acc with otherFundAllocations := acc.otherFundAllocations + e.2 } else acc) d

/-- Lines 185-194: the rollup `current` of the department with the program added. -/
def updateDepartment (fund : String) (current : DepartmentRollup)
    (program : AllocationResult) : DepartmentRollup :=
  let d1 := { current with
    accountingFundAllocation := current.accountingFundAllocation + program.targetBudget
    programRevenue := current.programRevenue + program.program.Revenue
    programCount := current.programCount + 1 }
  if fund ≠ allFunds then addOtherFunds fund d1 program.program.fundBreakdown else d1

/-- The body of the loop of lines 173-195 for one program.  When the department
is named like an inherited member, the read of line 176 finds that member, no
rollup is created, and lines 185-194 write to the inherited object: the dictionary
gets no property. -/
def addToDepartment (fund : String) (departmentMap : Dict DepartmentRollup)
    (program : AllocationResult) : Dict DepartmentRollup :=
  let dept := program.program.Department
  match departmentMap.read dept with
  | Member.own d => departmentMap.set dept (updateDepartment fund d program)
  | Member.undefined =>
    departmentMap.set dept (updateDepartment fund
      { department := dept, accountingFundAllocation := 0, otherFundAllocations := 0,
        programRevenue := 0, programCount := 0 } program)
  | Member.inherited => departmentMap

/-- The dictionary `departmentMap` after the loop of lines 172-195. -/
def buildDepartmentMap (fund : String) (calculated : List AllocationResult) :
    Dict DepartmentRollup :=
  calculated.foldl (addToDepartment fund) []

/-- The order of line 196: `a` stays before `b` unless the comparator
`b.accountingFundAllocation - a.accountingFundAllocation` is positive (a `NaN`
comparator counts as 0). -/
def allocationOrder (a b : DepartmentRollup) : Prop :=
  ¬ ((0 : JSVal) < b.accountingFundAllocation - a.accountingFundAllocation)

instance allocationOrderDecidable : DecidableRel allocationOrder :=
  fun a b => inferInstanceAs
    (Decidable (¬ ((0 : JSVal) < b.accountingFundAllocation - a.accountingFundAllocation)))

/-- Line 196: the department rollups, sorted (stably) by decreasing allocation.
With `NaN` allocations the comparator is not an order and the engine may place
the rollups otherwise; the development uses the sort as a permutation only. -/
def departmentRollups (fund : String) (calculated : List AllocationResult) :
    List DepartmentRollup :=
  List.insertionSort allocationOrder (buildDepartmentMap fund calculated).values

/-- The object given to `setResults`, lines 197-202. -/
structure Results where
  programs : List AllocationResult
  summary : Summary
  byQuartile : Dict QuartileRollup
  byDepartment : List DepartmentRollup
  deriving DecidableEq

/-- Lines 134-202: the results computed from a non-empty program list. -/
def computeResults (programs : List ProgramAggregate) (fund : String)
    (quartileChanges : QuartileChanges) (protectRevenue : Bool) : Results :=
  let calculated := calculatedPrograms programs fund quartileChanges protectRevenue
  { programs := calculated
    summary := summarize calculated fund
    byQuartile := quartileRollups calculated
    byDepartment := departmentRollups fund calculated }

/-! ## The fund progress ledger and the application state -/

/-- A value of `fundProgress`.  A property that the object does not carry is
`none` (`false` for the flag `calculated`, which is only ever written `true`). -/
structure FundProgressEntry where
  calculated : Bool
  saved : Bool
  lastCalculated : Option String
  savedAt : Option String
  totalOriginal : Option ℚ
  totalTarget : Option JSVal
  totalChange : Option JSVal
  totalChangePercent : Option JSVal
  quartileSettings : Option QuartileChanges
  deriving DecidableEq

/-- The state of the component that the engine reads and writes. -/
structure AppState where
  programs : List ProgramAggregate
  fund : String
  protectRevenue : Bool
  quartileChanges : QuartileChanges
  results : Option Results
  fundProgress : Dict FundProgressEntry

/-- The state after mounting; `stored` is the ledger read from local storage. -/
def initialState (stored : Dict FundProgressEntry) : AppState :=
  { programs := []
    fund := allFunds
    protectRevenue := true
    quartileChanges := { q1 := 5, q2 := 2, q3 := -2, q4 := -5 }
    results := none
    fundProgress := stored }

/-- The updater of lines 204-213: the entry of `fund` is replaced by a fresh
object that keeps only the previous `saved` flag.  (For a fund named like an
inherited member and without an entry, `prev[fund]?.saved` is `undefined` as
well, and the computed key defines an own property.) -/
def recordCalculation (prev : Dict FundProgressEntry) (fund : String) (summary : Summary)
    (quartileChanges : QuartileChanges) (now : String) : Dict FundProgressEntry :=
  prev.set fund
    { calculated := true
      saved := match prev.get fund with
        | some e => e.saved
        | none => false
      lastCalculated := some now
      savedAt := none
      totalOriginal := some summary.totalOriginal
      totalTarget := some summary.totalTarget
      totalChange := some summary.totalChange
      totalChangePercent := some summary.totalChangePercent
      quartileSettings := some quartileChanges }

/-- The function `calculateTargetBudgets`, lines 129-215. -/
def calculateTargetBudgets (s : AppState) (now : String) : AppState :=
  if s.programs.length = 0 then s
  else
    let results := computeResults s.programs s.fund s.quartileChanges s.protectRevenue
    { s with
      results := some results
      fundProgress :=
        if s.fund ≠ allFunds then
          recordCalculation s.fundProgress s.fund results.summary s.quartileChanges now
        else s.fundProgress }

/-- The updater of lines 222-225: the entry of `fund`, or an empty object when
there is none, with `saved` and `savedAt` written. -/
def markSaved (prev : Dict FundProgressEntry) (fund : String) (now : String) :
    Dict FundProgressEntry :=
  let old : FundProgressEntry := match prev.get fund with
    | some e => e
    | none => { calculated := false, saved := false, lastCalculated := none, savedAt := none,
                totalOriginal := none, totalTarget := none, totalChange := none,
                totalChangePercent := none, quartileSettings := none }
  prev.set fund { old with saved := true, savedAt := some now }

/-- The function `saveFundProgress`, lines 217-227; `none` is the rejection
(the alert of line 219, the state untouched). -/
def saveFundProgress (s : AppState) (now : String) : Option AppState :=
  if s.results.isNone ∨ s.fund = allFunds then none
  else some { s with fundProgress := markSaved s.fundProgress s.fund now }

/-- The function `clearAllProgress`, lines 229-235; `confirmed` is the answer to
the confirmation dialog. -/
def clearAllProgress (s : AppState) (confirmed : Bool) : AppState :=
  if confirmed then { s with fundProgress := [] } else s

/-- The user actions that drive the state. -/
inductive Action where
  | upload (detailsData : List DetailRecord)
  | selectFund (fund : String)
  | setProtectRevenue (b : Bool)
  | setQuartileChanges (quartileChanges : QuartileChanges)
  | calculate (now : String)
  | save (now : String)
  | clearAll (confirmed : Bool)

/-- One action on the state; a rejected save and an upload whose loop throws
leave the state as it is. -/
def step (s : AppState) : Action → AppState
  | .upload detailsData =>
    if uploadThrows detailsData then s else { s with programs := aggregatePrograms detailsData }
  | .selectFund fund => { s with fund := fund }
  | .setProtectRevenue b => { s with protectRevenue := b }
  | .setQuartileChanges quartileChanges => { s with quartileChanges := quartileChanges }
  | .calculate now => calculateTargetBudgets s now
  | .save now => (saveFundProgress s now).getD s
  | .clearAll confirmed => clearAllProgress s confirmed

/-- A sequence of actions, from left to right. -/
def run (s : AppState) (actions : List Action) : AppState := actions.foldl step s

/-! ## Scenario data -/

/-- A detail record with the given identifiers, account type, cost type and
amount; its quartile cell holds the number 1. -/
def detailRecord (programId department fund acctType costType : String) (amount : ℚ) :
    DetailRecord :=
  { program_id := programId, Department := some department, Program := some "Program",
    Fund := some fund, Quartile := Label.number 1, FinalScore := 0, AcctType := acctType,
    CostType := costType, TotalItemCost := some amount }

/-- An expense record of personnel cost. -/
def expenseRecord (programId department fund : String) (amount : ℚ) : DetailRecord :=
  detailRecord programId department fund "Expense" "Personnel" amount

/-- The program of the revenue scenarios: a budget of 100000 in the fourth quartile. -/
def scenarioProgram (revenue : ℚ) : ProgramAggregate :=
  { program_id := "P1", Program := "Program", Department := "Dept",
    Quartile := Label.text "4th Quartile", FinalScore := 0, Personnel := 100000,
    NonPersonnel := 0, Revenue := revenue, Budget := 100000, funds := [some "General"],
    fundBreakdown := [("General", 100000)] }

/-- The quartile percentages of the scenarios: the fourth quartile at -5%. -/
def scenarioChanges : QuartileChanges := { q1 := 5, q2 := 2, q3 := -2, q4 := -5 }

/-- The aggregate of one fund of the scenarios: program "P" of department "D",
first quartile, all of its expense being personnel cost. -/
def fundAggregate (programId department fund : String) (amount : ℚ) : ProgramAggregate :=
  { program_id := programId, Program := "Program", Department := department,
    Quartile := Label.text "1st Quartile", FinalScore := 0, Personnel := amount,
    NonPersonnel := 0, Revenue := 0, Budget := amount, funds := [some fund],
    fundBreakdown := [(fund, JSVal.num amount)] }

/-- The records of the ledger scenarios: program "P" of department "D" with an
expense under each of the funds "A", "B" and "C". -/
def threeFundRecords : List DetailRecord :=
  [expenseRecord "P" "D" "A" 1000, expenseRecord "P" "D" "B" 500, expenseRecord "P" "D" "C" 250]

/-- The ledger entry written by a save for a fund without an entry: the object
carries `saved` and `savedAt` only. -/
def savedOnlyEntry (now : String) : FundProgressEntry :=
  { calculated := false, saved := true, lastCalculated := none, savedAt := some now,
    totalOriginal := none, totalTarget := none, totalChange := none,
    totalChangePercent := none, quartileSettings := none }

/-- Whether the aggregation loop files the record under the key `k`: the record
carries a program identifier and the key of line 77 is `k`. -/
def filedUnder (k : String) (row : DetailRecord) : Bool :=
  decide (row.program_id ≠ "" ∧ recordKey row = k)

/-- An aggregate with the given budget, department and stored quartile. -/
def quartileAggregate (department : String) (quartile : Label) (budget : ℚ) :
    ProgramAggregate :=
  { program_id := "P", Program := "Program", Department := department,
    Quartile := quartile, FinalScore := 0, Personnel := budget,
    NonPersonnel := 0, Revenue := 0, Budget := budget, funds := [some "A"],
    fundBreakdown := [("A", JSVal.num budget)] }

/-- A detail record of the first-record scenario: program "P", department "D",
fund "A", with the given quartile label, score and expense amount. -/
def labelledRecord (quartile : Label) (score amount : ℚ) : DetailRecord :=
  { program_id := "P", Department := some "D", Program := some "Program",
    Fund := some "A", Quartile := quartile, FinalScore := score, AcctType := "Expense",
    CostType := "Personnel", TotalItemCost := some amount }

/-- A program aggregate of budget 1000 with the given department and stored
quartile, as the aggregation gives it for an expense of 1000 under fund "A". -/
def namedAggregate (department : String) (quartile : Label) : ProgramAggregate :=
  { program_id := "P", Program := "Program", Department := department,
    Quartile := quartile, FinalScore := 0, Personnel := 1000,
    NonPersonnel := 0, Revenue := 0, Budget := 1000, funds := [some "A"],
    fundBreakdown := [("A", 1000)] }

/-! ## IEEE double arithmetic -/

/-- Number of binary digits of `n` (0 for 0); the first argument bounds the
recursion. -/
def bitsOf : Nat → Nat → Nat
  | 0, _ => 0
  | fuel + 1, n => if n = 0 then 0 else bitsOf fuel (n / 2) + 1

/-- The power `2 ^ e` for an integer exponent. -/
def pow2 (e : Int) : ℚ :=
  if 0 ≤ e then ((2 ^ e.toNat : Nat) : ℚ) else 1 / ((2 ^ (-e).toNat : Nat) : ℚ)

/-- The binary exponent of a non-zero rational: the `e` with `2 ^ e ≤ |x| < 2 ^ (e + 1)`. -/
def binaryExponent (x : ℚ) : Int :=
  let e0 : Int := (bitsOf x.num.natAbs x.num.natAbs : Int) - (bitsOf x.den x.den : Int)
  if pow2 e0 ≤ |x| then e0 else e0 - 1

/-- Rounding to the nearest integer, ties to the even one. -/
def roundHalfEven (q : ℚ) : Int :=
  let f := ⌊q⌋
  if q - f < 1 / 2 then f
  else if 1 / 2 < q - f then f + 1
  else if f % 2 = 0 then f else f + 1

/-- The double nearest to `x` (IEEE 754 binary64, round to nearest, ties to even),
for `|x|` below `2 ^ 1024`: 53 significant bits, the exponent not below -1022. -/
def toDouble (x : ℚ) : ℚ :=
  if x = 0 then 0
  else
    let e := Max.max (binaryExponent x) (-1022)
    let ulp := pow2 (e - 52)
    (roundHalfEven (x / ulp) : ℚ) * ulp

/-- The operator `+` on two doubles: the exact sum, rounded. -/
def addDouble (a b : ℚ) : ℚ := toDouble (a + b)

/-- The three accumulators of lines 104-109 of one aggregate. -/
structure Accumulators where
  Budget : ℚ
  Personnel : ℚ
  NonPersonnel : ℚ
  deriving DecidableEq

/-- Lines 95 and 103-110 in double arithmetic, for a record of the aggregate:
`parseFloat` gives the double of the amount, and each `+=` rounds. -/
def accumulateDouble (acc : Accumulators) (row : DetailRecord) : Accumulators :=
  let amount := toDouble (amountOf row)
  if row.AcctType = "Expense" then
    let a1 := { acc with Budget := addDouble acc.Budget amount }
    if row.CostType = "Personnel" then { a1 with Personnel := addDouble a1.Personnel amount }
    else if row.CostType = "NonPersonnel" then
      { a1 with NonPersonnel := addDouble a1.NonPersonnel amount }
    else a1
  else acc

/-- The accumulators of an aggregate after the records of its key, in double
arithmetic, from the zeros of lines 86-89. -/
def accumulatorsDouble (rows : List DetailRecord) : Accumulators :=
  rows.foldl accumulateDouble { Budget := 0, Personnel := 0, NonPersonnel := 0 }

/-! ## Lemmas on values -/

@[simp] theorem JSVal.num_add (a b : ℚ) : JSVal.num a + JSVal.num b = JSVal.num (a + b) := rfl

@[simp] theorem JSVal.num_sub (a b : ℚ) : JSVal.num a - JSVal.num b = JSVal.num (a - b) := rfl

@[simp] theorem JSVal.num_mul (a b : ℚ) : JSVal.num a * JSVal.num b = JSVal.num (a * b) := rfl

@[simp] theorem JSVal.num_div (a b : ℚ) : JSVal.num a / JSVal.num b = JSVal.num (a / b) := rfl

@[simp] theorem JSVal.neg_num (a : ℚ) : -JSVal.num a = JSVal.num (-a) := rfl

@[simp] theorem JSVal.zero_eq : (0 : JSVal) = JSVal.num 0 := rfl

@[simp] theorem JSVal.one_eq : (1 : JSVal) = JSVal.num 1 := rfl

@[simp] theorem JSVal.num_zero_add (a : JSVal) : JSVal.num 0 + a = a := zero_add a

@[simp] theorem JSVal.add_num_zero (a : JSVal) : a + JSVal.num 0 = a := add_zero a

@[simp] theorem JSVal.ofNat_eq (n : Nat) [n.AtLeastTwo] :
    (OfNat.ofNat n : JSVal) = JSVal.num (OfNat.ofNat n) := rfl

@[simp] theorem JSVal.num_lt (a b : ℚ) : JSVal.num a < JSVal.num b ↔ a < b := Iff.rfl

@[simp] theorem JSVal.num_le (a b : ℚ) : JSVal.num a ≤ JSVal.num b ↔ a ≤ b := Iff.rfl

@[simp] theorem JSVal.max_num (a b : ℚ) :
    JSVal.max (JSVal.num a) (JSVal.num b) = JSVal.num (Max.max a b) := rfl

@[simp] theorem JSVal.text_div_num (b : ℚ) : JSVal.text / JSVal.num b = JSVal.nan := rfl

@[simp] theorem JSVal.num_add_nan (a : ℚ) : JSVal.num a + JSVal.nan = JSVal.nan := rfl

@[simp] theorem JSVal.num_mul_nan (a : ℚ) : JSVal.num a * JSVal.nan = JSVal.nan := rfl

@[simp] theorem JSVal.nan_sub_num (a : ℚ) : JSVal.nan - JSVal.num a = JSVal.nan := rfl

@[simp] theorem JSVal.nan_div_num (a : ℚ) : JSVal.nan / JSVal.num a = JSVal.nan := rfl

@[simp] theorem JSVal.nan_mul_num (a : ℚ) : JSVal.nan * JSVal.num a = JSVal.nan := rfl

@[simp] theorem JSVal.not_text_lt (b : JSVal) : ¬ (JSVal.text < b) := fun h => h

@[simp] theorem JSVal.not_nan_lt (b : JSVal) : ¬ (JSVal.nan < b) := fun h => h

@[simp] theorem JSVal.not_lt_nan (a : JSVal) : ¬ (a < JSVal.nan) := by
  cases a <;> exact fun h => h

@[simp] theorem JSVal.nan_add (a : ℚ) : JSVal.nan + JSVal.num a = JSVal.nan := rfl

@[simp] theorem JSVal.nan_add_nan : JSVal.nan + JSVal.nan = JSVal.nan := rfl

@[simp] theorem JSVal.text_add (a : JSVal) : JSVal.text + a = JSVal.text := by
  cases a <;> rfl

@[simp] theorem JSVal.add_text (a : JSVal) : a + JSVal.text = JSVal.text := by
  cases a <;> rfl

/-! ## Lemmas on dictionaries and on the aggregation loop -/

theorem Dict.get_set_self {α : Type} (d : Dict α) (k : String) (v : α) :
    (d.set k v).get k = some v := by
  induction d with
  | nil => simp [Dict.set, Dict.get]
  | cons e t ih =>
    obtain ⟨k1, v1⟩ := e
    by_cases h : k1 = k
    · simp [Dict.set, Dict.get, h]
    · simp [Dict.set, Dict.get, h, ih]

theorem Dict.get_set_ne {α : Type} (d : Dict α) (k k2 : String) (v : α) (h : k ≠ k2) :
    (d.set k v).get k2 = d.get k2 := by
  induction d with
  | nil => simp [Dict.set, Dict.get, h]
  | cons e t ih =>
    obtain ⟨k1, v1⟩ := e
    by_cases h1 : k1 = k
    · subst h1; simp [Dict.set, Dict.get, h]
    · by_cases h2 : k1 = k2
      · subst h2
        simp [Dict.set, Dict.get, h1]
      · simp [Dict.set, Dict.get, h1, h2, ih]

theorem Dict.mem_values_set {α : Type} (d : Dict α) (k : String) (v x : α)
    (hx : x ∈ (d.set k v).values) : x = v ∨ x ∈ d.values := by
  induction d with
  | nil => simpa [Dict.set, Dict.values] using hx
  | cons e t ih =>
    obtain ⟨k1, v1⟩ := e
    by_cases h : k1 = k
    · simp [Dict.set, Dict.values, h] at hx ⊢
      rcases hx with hx | hx
      · exact Or.inl hx
      · exact Or.inr (Or.inr hx)
    · simp only [Dict.set, h, if_false, Dict.values, List.map_cons, List.mem_cons] at hx ⊢
      rcases hx with hx | hx
      · exact Or.inr (Or.inl hx)
      · rcases ih hx with h1 | h1
        · exact Or.inl h1
        · exact Or.inr (Or.inr h1)

theorem Dict.mem_values_of_get {α : Type} (d : Dict α) (k : String) (v : α)
    (h : d.get k = some v) : v ∈ d.values := by
  induction d with
  | nil => simp [Dict.get] at h
  | cons e t ih =>
    obtain ⟨k1, v1⟩ := e
    by_cases h1 : k1 = k
    · simp [Dict.get, h1] at h
      simp [Dict.values, h]
    · simp [Dict.get, h1] at h
      have := ih h
      simp only [Dict.values, List.map_cons, List.mem_cons] at this ⊢
      exact Or.inr this

theorem Dict.sum_set {α M : Type} [AddCommMonoid M] (f : α → M) (d : Dict α) (k : String)
    (v : α) :
    ((d.set k v).map (fun e => f e.2)).sum + ((d.get k).map f).getD 0 =
      (d.map (fun e => f e.2)).sum + f v := by
  induction d with
  | nil => simp [Dict.set, Dict.get]
  | cons e t ih =>
    obtain ⟨k1, v1⟩ := e
    by_cases h : k1 = k
    · simp [Dict.set, Dict.get, h, add_comm, add_left_comm]
    · simp only [Dict.set, Dict.get, h, if_false, List.map_cons, List.sum_cons]
      rw [add_assoc, ih, add_assoc]

theorem JSVal.add_eq_num {a b : JSVal} {c : ℚ} (h : a + b = JSVal.num c) :
    ∃ x y, a = JSVal.num x ∧ b = JSVal.num y ∧ x + y = c := by
  cases a <;> cases b <;> first
    | exact JSVal.noConfusion h
    | exact ⟨_, _, rfl, rfl, JSVal.num.inj h⟩

theorem breakdownTotal_set (fb : Dict JSVal) (k : String) (v : JSVal) :
    breakdownTotal (fb.set k v) + (fb.get k).getD 0 = breakdownTotal fb + v := by
  have h := Dict.sum_set (fun x : JSVal => x) fb k v
  simpa [breakdownTotal] using h

theorem breakdownTotal_get (fb : Dict JSVal) (k : String) (B : ℚ) (v : JSVal)
    (h : breakdownTotal fb = JSVal.num B) (hg : fb.get k = some v) : ∃ g, v = JSVal.num g := by
  induction fb generalizing B with
  | nil => simp [Dict.get] at hg
  | cons e t ih =>
    obtain ⟨k1, v1⟩ := e
    have h1 : v1 + breakdownTotal t = JSVal.num B := by
      simpa [breakdownTotal] using h
    obtain ⟨x, y, hx, hy, -⟩ := JSVal.add_eq_num h1
    by_cases hk : k1 = k
    · simp only [Dict.get, hk, if_true, Option.some.injEq] at hg
      exact ⟨x, by rw [← hg, hx]⟩
    · simp only [Dict.get, hk, if_false] at hg
      exact ih y hy hg

theorem breakdownTotal_set_num (fb : Dict JSVal) (k : String) (B g v : ℚ)
    (h : breakdownTotal fb = JSVal.num B) (hg : (fb.get k).getD 0 = JSVal.num g) :
    breakdownTotal (fb.set k (JSVal.num v)) = JSVal.num (B - g + v) := by
  have hs := breakdownTotal_set fb k (JSVal.num v)
  rw [h, hg] at hs
  have hs1 : breakdownTotal (fb.set k (JSVal.num v)) + JSVal.num g = JSVal.num (B + v) := hs
  obtain ⟨x, y, hx, hy, hxy⟩ := JSVal.add_eq_num hs1
  rw [hx]
  have hyg : y = g := (JSVal.num.inj hy).symm
  congr 1
  rw [hyg] at hxy
  linarith

/-- The fund breakdown holds numbers whose sum is `B`, and the fund has an entry. -/
theorem touchFund_total (fb : Dict JSVal) (k : String) (B : ℚ)
    (h : breakdownTotal fb = JSVal.num B) (hk : k ∉ inheritedNames) :
    breakdownTotal (touchFund fb k) = JSVal.num B ∧
      ∃ g, (touchFund fb k).get k = some (JSVal.num g) := by
  unfold touchFund Dict.read
  cases hg : fb.get k with
  | none =>
    simp only [hk, if_false]
    refine ⟨?_, 0, Dict.get_set_self _ _ _⟩
    have := breakdownTotal_set_num fb k B 0 0 h (by rw [hg]; rfl)
    simpa using this
  | some v =>
    obtain ⟨g, rfl⟩ := breakdownTotal_get fb k B v h hg
    by_cases hz : g = 0
    · subst hz
      have ht : (JSVal.num 0).truthy = false := by simp [JSVal.truthy]
      simp only [ht, Bool.false_eq_true, if_false]
      refine ⟨?_, 0, Dict.get_set_self _ _ _⟩
      have := breakdownTotal_set_num fb k B 0 0 h (by rw [hg]; rfl)
      simpa using this
    · have ht : (JSVal.num g).truthy = true := by simp [JSVal.truthy, hz]
      simp only [ht, if_true]
      exact ⟨h, g, hg⟩

theorem addToFund_total (fb : Dict JSVal) (k : String) (B g amount : ℚ)
    (h : breakdownTotal fb = JSVal.num B) (hg : fb.get k = some (JSVal.num g)) :
    breakdownTotal (addToFund fb k amount) = JSVal.num (B + amount) := by
  unfold addToFund Dict.read
  simp only [hg]
  have := breakdownTotal_set_num fb k B g (g + amount) h (by rw [hg]; rfl)
  rw [show (JSVal.num g + JSVal.num amount) = JSVal.num (g + amount) from rfl, this]
  congr 1
  ring

theorem accumulate_budget (p : ProgramAggregate) (row : DetailRecord)
    (hk : cellText row.Fund ∉ inheritedNames)
    (h : breakdownTotal p.fundBreakdown = JSVal.num p.Budget) :
    breakdownTotal (accumulate p row).fundBreakdown = JSVal.num (accumulate p row).Budget := by
  obtain ⟨ht, g, hg⟩ := touchFund_total p.fundBreakdown (cellText row.Fund) p.Budget h hk
  have key := addToFund_total _ (cellText row.Fund) p.Budget g (amountOf row) ht hg
  unfold accumulate
  by_cases he : row.AcctType = "Expense"
  · by_cases hp : row.CostType = "Personnel"
    · simpa [he, hp] using key
    · by_cases hn : row.CostType = "NonPersonnel"
      · simpa [he, hp, hn] using key
      · simpa [he, hp, hn] using key
  · by_cases hr : row.AcctType = "Revenue"
    · simpa [he, hr] using ht
    · simpa [he, hr] using ht

theorem addRecord_values (P : ProgramAggregate → Prop) (m : Dict ProgramAggregate)
    (row : DetailRecord) (hnew : P (newAggregate row))
    (hacc : ∀ p, P p → P (accumulate p row)) (hm : ∀ p ∈ m.values, P p) :
    ∀ p ∈ (addRecord m row).values, P p := by
  intro p hp
  unfold addRecord at hp
  by_cases hid : row.program_id = ""
  · simp only [hid, if_true] at hp
    exact hm p hp
  · simp only [hid, if_false] at hp
    rcases Dict.mem_values_set _ _ _ _ hp with h | h
    · subst h
      apply hacc
      cases hg : m.get (recordKey row) with
      | none => simpa using hnew
      | some a => simpa using hm a (Dict.mem_values_of_get _ _ _ hg)
    · exact hm p h

theorem buildProgramMap_values (P : ProgramAggregate → Prop) (R : DetailRecord → Prop)
    (hnew : ∀ row, P (newAggregate row))
    (hacc : ∀ p row, R row → P p → P (accumulate p row))
    (records : List DetailRecord) (hR : ∀ row ∈ records, R row) :
    ∀ p ∈ (buildProgramMap records).values, P p := by
  unfold buildProgramMap
  suffices h : ∀ (m : Dict ProgramAggregate), (∀ p ∈ m.values, P p) →
      ∀ p ∈ (records.foldl addRecord m).values, P p by
    exact h [] (by simp [Dict.values])
  induction records with
  | nil => intro m hm; simpa using hm
  | cons row rest ih =>
    intro m hm
    simp only [List.foldl_cons]
    apply ih (fun r hr => hR r (List.mem_cons_of_mem _ hr))
    exact addRecord_values P m row (hnew row)
      (fun p hp => hacc p row (hR row (List.mem_cons_self _ _)) hp) hm

theorem mem_calculatedPrograms {programs : List ProgramAggregate} {fund : String}
    {qc : QuartileChanges} {protect : Bool} {r : AllocationResult} :
    r ∈ calculatedPrograms programs fund qc protect ↔
      ∃ p ∈ programs, (fund ≠ allFunds → some fund ∈ p.funds) ∧ p.Budget ≠ 0 ∧
        allocate qc protect p = r := by
  unfold calculatedPrograms validPrograms filterByFund
  by_cases hf : fund = allFunds
  · simp only [hf, ne_eq, not_true_eq_false, ite_false, List.mem_map, List.mem_filter]
    constructor <;> rintro ⟨a, h⟩ <;> refine ⟨a, ?_⟩ <;> simp at h ⊢ <;> tauto
  · simp only [hf, ne_eq, not_false_eq_true, ite_true, List.mem_map, List.mem_filter]
    constructor <;> rintro ⟨a, h⟩ <;> refine ⟨a, ?_⟩ <;> simp at h ⊢ <;> tauto

theorem normalizeQuartile_number_one :
    normalizeQuartile (Label.number 1) = Label.text "1st Quartile" := by decide

/-! ## The claims -/

/-- Claim C1. Revenue floor: for every program `r` in the results of a calculation
run with `protectRevenue = true`, whose quartile is configured with a percentage
`p < 0` and whose revenue is positive, the target budget is
`max (budget * (1 + p / 100)) revenue`; hence it is never below the revenue, and
the change amount is the target minus the budget. -/
theorem revenue_floor (programs : List ProgramAggregate) (fund : String) (qc : QuartileChanges)
    (r : AllocationResult) (p : ℚ)
    (hr : r ∈ (computeResults programs fund qc true).programs)
    (hq : qc.get r.program.Quartile = some p) (hp : p < 0) (hrev : 0 < r.program.Revenue) :
    r.targetBudget = max (r.program.Budget * (1 + p / 100)) r.program.Revenue ∧
      r.program.Revenue ≤ r.targetBudget ∧
      r.changeAmount = r.targetBudget - r.program.Budget := by
  obtain ⟨a, -, -, -, rfl⟩ := mem_calculatedPrograms.mp hr
  have hq1 : qc.get a.Quartile = some p := hq
  have hrev1 : 0 < a.Revenue := hrev
  simp [allocate, quartileChangeOf, hq1, hp, hrev1]

/-- The scenario of claim C1: budget 100000, revenue 98000, fourth quartile at -5%,
revenue protection on; the target is 98000 and the change is -2000. -/
theorem revenue_floor_scenario :
    allocate scenarioChanges true (scenarioProgram 98000) ∈
        (computeResults [scenarioProgram 98000] allFunds scenarioChanges true).programs ∧
      (allocate scenarioChanges true (scenarioProgram 98000)).targetBudget = 98000 ∧
      (allocate scenarioChanges true (scenarioProgram 98000)).changeAmount = -2000 := by
  have hm : allocate scenarioChanges true (scenarioProgram 98000) ∈
      (computeResults [scenarioProgram 98000] allFunds scenarioChanges true).programs := by
    simp [computeResults, calculatedPrograms, validPrograms, filterByFund, scenarioProgram]
  have h := revenue_floor [scenarioProgram 98000] allFunds scenarioChanges
    (allocate scenarioChanges true (scenarioProgram 98000)) (-5) hm
    (by simp [allocate, scenarioProgram, scenarioChanges, QuartileChanges.get, Label.toText])
    (by norm_num) (by norm_num [allocate, scenarioProgram])
  refine ⟨hm, ?_, ?_⟩
  · rw [h.1]
    show JSVal.num _ = JSVal.num 98000
    congr 1
    norm_num [allocate, scenarioProgram]
  · rw [h.2.2, h.1]
    show JSVal.num _ = JSVal.num (-2000)
    congr 1
    norm_num [allocate, scenarioProgram]

/-- Claim C2. Revenue protection never engages outside its three conditions: for
every program `r` in the results of a calculation, whose quartile is configured
with the percentage `p`, if `p ≥ 0`, or the revenue is not positive, or
`protectRevenue` is false, then the target budget is exactly
`budget * (1 + p / 100)`; the change amount is the target minus the budget and
the change percent is the change over the budget times 100. -/
theorem no_protection_outside (programs : List ProgramAggregate) (fund : String)
    (qc : QuartileChanges) (protect : Bool) (r : AllocationResult) (p : ℚ)
    (hr : r ∈ (computeResults programs fund qc protect).programs)
    (hq : qc.get r.program.Quartile = some p)
    (h : 0 ≤ p ∨ r.program.Revenue ≤ 0 ∨ protect = false) :
    r.targetBudget = r.program.Budget * (1 + p / 100) ∧
      r.changeAmount = r.targetBudget - r.program.Budget ∧
      r.changePercent = r.changeAmount / r.program.Budget * 100 := by
  obtain ⟨a, -, -, hb, rfl⟩ := mem_calculatedPrograms.mp hr
  have hq1 : qc.get a.Quartile = some p := hq
  have hcond : ¬ (protect = true ∧ a.Revenue > 0 ∧ p < 0) := by
    rintro ⟨h1, h2, h3⟩
    rcases h with h | h | h
    · exact absurd h3 (not_lt.mpr h)
    · exact absurd h2 (not_lt.mpr h)
    · rw [h1] at h; exact Bool.noConfusion h
  simp [allocate, quartileChangeOf, hq1, hcond, hb]

/-- The scenario of claim C2: budget 100000, revenue 0, fourth quartile at -5%,
revenue protection on; the target is 95000, the change -5000, the change percent -5. -/
theorem no_protection_scenario :
    allocate scenarioChanges true (scenarioProgram 0) ∈
        (computeResults [scenarioProgram 0] allFunds scenarioChanges true).programs ∧
      (allocate scenarioChanges true (scenarioProgram 0)).targetBudget = 95000 ∧
      (allocate scenarioChanges true (scenarioProgram 0)).changeAmount = -5000 ∧
      (allocate scenarioChanges true (scenarioProgram 0)).changePercent = -5 := by
  have hm : allocate scenarioChanges true (scenarioProgram 0) ∈
      (computeResults [scenarioProgram 0] allFunds scenarioChanges true).programs := by
    simp [computeResults, calculatedPrograms, validPrograms, filterByFund, scenarioProgram]
  have h := no_protection_outside [scenarioProgram 0] allFunds scenarioChanges true
    (allocate scenarioChanges true (scenarioProgram 0)) (-5) hm
    (by simp [allocate, scenarioProgram, scenarioChanges, QuartileChanges.get, Label.toText])
    (Or.inr (Or.inl (by norm_num [allocate, scenarioProgram])))
  have ht : (allocate scenarioChanges true (scenarioProgram 0)).targetBudget = 95000 := by
    rw [h.1]
    show JSVal.num _ = JSVal.num 95000
    congr 1
    norm_num [allocate, scenarioProgram]
  have hc : (allocate scenarioChanges true (scenarioProgram 0)).changeAmount = -5000 := by
    rw [h.2.1, ht]
    show JSVal.num _ = JSVal.num (-5000)
    congr 1
    norm_num [allocate, scenarioProgram]
  refine ⟨hm, ht, hc, ?_⟩
  rw [h.2.2, hc]
  show JSVal.num _ = JSVal.num (-5)
  congr 1
  norm_num [allocate, scenarioProgram]

/-- Claim C3, evaluated where the code leaves it. The key of line 77 joins the three
texts with underscores, so the records (program "P_X", department "D", fund "F") and
(program "P", department "X_D", fund "F"), which differ in program identifier and in
department, get the same key and are folded into one aggregate of budget 2000 that
carries the identifier and department of the first. -/
theorem key_collision_merges_distinct_triples :
    (expenseRecord "P_X" "D" "F" 1000).program_id ≠ (expenseRecord "P" "X_D" "F" 1000).program_id ∧
    (expenseRecord "P_X" "D" "F" 1000).Department ≠ (expenseRecord "P" "X_D" "F" 1000).Department ∧
    recordKey (expenseRecord "P_X" "D" "F" 1000) = recordKey (expenseRecord "P" "X_D" "F" 1000) ∧
    aggregatePrograms [expenseRecord "P_X" "D" "F" 1000, expenseRecord "P" "X_D" "F" 1000] =
      [fundAggregate "P_X" "D" "F" 2000] := by
  refine ⟨by decide, by decide, by decide, by decide!⟩

/-- The scenario of the specification for the grouping key: the same program and
department under the funds "A" and "B", an expense of 1000 each, give two aggregates. -/
theorem two_funds_two_aggregates :
    aggregatePrograms [expenseRecord "P" "D" "A" 1000, expenseRecord "P" "D" "B" 1000] =
      [fundAggregate "P" "D" "A" 1000, fundAggregate "P" "D" "B" 1000] := by
  decide!

/-- The invariant of the fund breakdown where no inherited member is read: when no
record has a fund named like an inherited member, every aggregate produced by the
aggregation loop has a fund breakdown whose values sum to its `Budget`. -/
theorem budget_eq_breakdown (records : List DetailRecord)
    (hfund : ∀ row ∈ records, cellText row.Fund ∉ inheritedNames) :
    ∀ p ∈ aggregatePrograms records, breakdownTotal p.fundBreakdown = JSVal.num p.Budget := by
  apply buildProgramMap_values (fun p => breakdownTotal p.fundBreakdown = JSVal.num p.Budget)
    (fun row => cellText row.Fund ∉ inheritedNames)
  · intro row; simp [newAggregate, breakdownTotal]
  · intro p row hrow h; exact accumulate_budget p row hrow h
  · exact hfund

/-- The lemma `budget_eq_breakdown` at the two-fund scenario: the aggregate of fund
"A" has budget 1000, the total of its breakdown. -/
theorem budget_eq_breakdown_scenario :
    fundAggregate "P" "D" "A" 1000 ∈
        aggregatePrograms [expenseRecord "P" "D" "A" 1000, expenseRecord "P" "D" "B" 1000] ∧
      breakdownTotal (fundAggregate "P" "D" "A" 1000).fundBreakdown =
        JSVal.num (fundAggregate "P" "D" "A" 1000).Budget := by
  have hm : fundAggregate "P" "D" "A" 1000 ∈
      aggregatePrograms [expenseRecord "P" "D" "A" 1000, expenseRecord "P" "D" "B" 1000] := by
    rw [two_funds_two_aggregates]; simp
  refine ⟨hm, budget_eq_breakdown _ ?_ _ hm⟩
  intro row hrow
  simp only [List.mem_cons, List.mem_singleton, List.not_mem_nil, or_false] at hrow
  rcases hrow with rfl | rfl <;> decide

/-- Claim C4, evaluated where the code leaves it. The reads of lines 100 and 105 find
the inherited member when the fund is named like one. For one expense of 1000 under
the fund "constructor", line 100 sees a truthy function and creates no entry, and
line 105 stores the function plus 1000, a text: the aggregate has `Budget` 1000 and
the breakdown {"constructor": text}, whose values do not sum to 1000. Under the fund
"__proto__" the assignment of line 105 is ignored: `Budget` is 1000 and the breakdown
is empty, of sum 0. -/
theorem inherited_fund_name_breaks_breakdown :
    aggregatePrograms [expenseRecord "P" "D" "constructor" 1000] =
      [{ fundAggregate "P" "D" "constructor" 1000 with
          fundBreakdown := [("constructor", JSVal.text)] }] ∧
    breakdownTotal [("constructor", JSVal.text)] = JSVal.text ∧
    aggregatePrograms [expenseRecord "P" "D" "__proto__" 1000] =
      [{ fundAggregate "P" "D" "__proto__" 1000 with fundBreakdown := [] }] ∧
    breakdownTotal [] = JSVal.num 0 ∧
    (∀ p ∈ aggregatePrograms [expenseRecord "P" "D" "constructor" 1000] ++
        aggregatePrograms [expenseRecord "P" "D" "__proto__" 1000],
      p.Budget = 1000 ∧ breakdownTotal p.fundBreakdown ≠ JSVal.num p.Budget) := by
  refine ⟨by decide!, by decide!, by decide!, by decide!, by decide!⟩

theorem accumulate_cost_types (p : ProgramAggregate) (row : DetailRecord)
    (hrow : row.AcctType = "Expense" → row.CostType = "Personnel" ∨ row.CostType = "NonPersonnel")
    (h : p.Budget = p.Personnel + p.NonPersonnel) :
    (accumulate p row).Budget = (accumulate p row).Personnel + (accumulate p row).NonPersonnel := by
  unfold accumulate
  by_cases he : row.AcctType = "Expense"
  · rcases hrow he with hp | hn
    · simp [he, hp, h]; ring
    · have hp : row.CostType ≠ "Personnel" := by rw [hn]; decide
      simp [he, hp, hn, h]; ring
  · by_cases hr : row.AcctType = "Revenue"
    · simpa [he, hr] using h
    · simpa [he, hr] using h

theorem accumulate_other_cost_type (p : ProgramAggregate) (row : DetailRecord)
    (he : row.AcctType = "Expense") (hp : row.CostType ≠ "Personnel")
    (hn : row.CostType ≠ "NonPersonnel") :
    (accumulate p row).Budget = p.Budget + amountOf row ∧
      (accumulate p row).Personnel = p.Personnel ∧
      (accumulate p row).NonPersonnel = p.NonPersonnel := by
  simp [accumulate, he, hp, hn]

/-- Claim C5, amended: with amounts and sums taken as exact numbers. When every
record of account type "Expense" has the cost type "Personnel" or "NonPersonnel",
every aggregate produced by the aggregation loop has
`Budget = Personnel + NonPersonnel`; and a record with a program identifier,
account type "Expense" and any other cost type, which the loop files (its key is
no inherited name, so that line 99 does not throw), adds its amount to the `Budget`
of the aggregate of its key and leaves `Personnel` and `NonPersonnel` as they
were. -/
theorem budget_eq_cost_types (records : List DetailRecord) (programMap : Dict ProgramAggregate)
    (row : DetailRecord)
    (hR : ∀ r ∈ records, r.AcctType = "Expense" →
      r.CostType = "Personnel" ∨ r.CostType = "NonPersonnel") :
    (∀ p ∈ aggregatePrograms records, p.Budget = p.Personnel + p.NonPersonnel) ∧
    (row.program_id ≠ "" → recordKey row ∉ inheritedNames → row.AcctType = "Expense" →
      row.CostType ≠ "Personnel" → row.CostType ≠ "NonPersonnel" →
      ∃ p, (addRecord programMap row).get (recordKey row) = some p ∧
        p.Budget = ((programMap.get (recordKey row)).getD (newAggregate row)).Budget
          + amountOf row ∧
        p.Personnel = ((programMap.get (recordKey row)).getD (newAggregate row)).Personnel ∧
        p.NonPersonnel =
          ((programMap.get (recordKey row)).getD (newAggregate row)).NonPersonnel) := by
  constructor
  · apply buildProgramMap_values (fun p => p.Budget = p.Personnel + p.NonPersonnel)
      (fun r => r.AcctType = "Expense" → r.CostType = "Personnel" ∨ r.CostType = "NonPersonnel")
    · intro r; simp [newAggregate]
    · intro p r hr h; exact accumulate_cost_types p r hr h
    · exact hR
  · intro hid _ he hp hn
    refine ⟨accumulate ((programMap.get (recordKey row)).getD (newAggregate row)) row, ?_,
      accumulate_other_cost_type _ row he hp hn⟩
    unfold addRecord
    simp only [hid, if_false]
    rw [Dict.get_set_self]
    cases programMap.get (recordKey row) <;> rfl

/-- Claim C5, amended, at concrete records: a personnel and a non-personnel expense of one
key give budget 1500 = 1000 + 500, and an expense of 700 with the cost type
"Capital" on an empty map gives budget 700 with both sub-buckets at 0. -/
theorem budget_eq_cost_types_scenario :
    (∃ p ∈ aggregatePrograms [detailRecord "P" "D" "A" "Expense" "Personnel" 1000,
        detailRecord "P" "D" "A" "Expense" "NonPersonnel" 500],
      p.Budget = 1500 ∧ p.Budget = p.Personnel + p.NonPersonnel) ∧
    (∃ p, (addRecord [] (detailRecord "P" "D" "A" "Expense" "Capital" 700)).get "P_D_A" = some p ∧
      p.Budget = 700 ∧ p.Personnel = 0 ∧ p.NonPersonnel = 0) := by
  have h := budget_eq_cost_types
    [detailRecord "P" "D" "A" "Expense" "Personnel" 1000,
      detailRecord "P" "D" "A" "Expense" "NonPersonnel" 500] []
    (detailRecord "P" "D" "A" "Expense" "Capital" 700)
    (by intro r hr; simp at hr; rcases hr with rfl | rfl <;> simp [detailRecord])
  have hagg : aggregatePrograms [detailRecord "P" "D" "A" "Expense" "Personnel" 1000,
        detailRecord "P" "D" "A" "Expense" "NonPersonnel" 500] =
      [{ fundAggregate "P" "D" "A" 1500 with Personnel := 1000, NonPersonnel := 500 }] := by
    decide!
  constructor
  · refine ⟨_, by rw [hagg]; exact List.mem_singleton.mpr rfl, by simp [fundAggregate], ?_⟩
    exact h.1 _ (by rw [hagg]; exact List.mem_singleton.mpr rfl)
  · obtain ⟨p, h1, h2, h3, h4⟩ :=
      h.2 (by decide) (by decide) (by decide) (by decide) (by decide)
    refine ⟨p, ?_, ?_, ?_, ?_⟩
    · simpa [recordKey, detailRecord, cellText] using h1
    · simpa [Dict.get, newAggregate, amountOf, detailRecord] using h2
    · simpa [Dict.get, newAggregate] using h3
    · simpa [Dict.get, newAggregate] using h4


/-- Claim C5 as stated fails in the arithmetic of the code. Three expense records
of one key, Personnel 0.1, NonPersonnel 0.1 and Personnel 0.4, all with a recognized
cost type: in IEEE doubles `Budget` is 0.1 + 0.1 + 0.4 = 0.6000000000000001
(5404319552844596 / 2^53), `Personnel` is 0.5 and `NonPersonnel` is the double of
0.1, and `Personnel + NonPersonnel` is 0.6 (5404319552844595 / 2^53); the exact sum
of the two doubles is not `Budget` either. -/
theorem double_rounding_breaks_cost_types :
    (∀ r ∈ [detailRecord "P" "D" "A" "Expense" "Personnel" (1 / 10),
        detailRecord "P" "D" "A" "Expense" "NonPersonnel" (1 / 10),
        detailRecord "P" "D" "A" "Expense" "Personnel" (2 / 5)],
      r.program_id ≠ "" ∧ recordKey r = "P_D_A" ∧
      (r.AcctType = "Expense" → r.CostType = "Personnel" ∨ r.CostType = "NonPersonnel")) ∧
    accumulatorsDouble [detailRecord "P" "D" "A" "Expense" "Personnel" (1 / 10),
        detailRecord "P" "D" "A" "Expense" "NonPersonnel" (1 / 10),
        detailRecord "P" "D" "A" "Expense" "Personnel" (2 / 5)] =
      { Budget := 5404319552844596 / 9007199254740992, Personnel := 1 / 2,
        NonPersonnel := 3602879701896397 / 36028797018963968 } ∧
    addDouble (1 / 2) (3602879701896397 / 36028797018963968)
      = 5404319552844595 / 9007199254740992 ∧
    (5404319552844596 / 9007199254740992 : ℚ) ≠ 1 / 2 + 3602879701896397 / 36028797018963968 ∧
    (accumulatorsDouble [detailRecord "P" "D" "A" "Expense" "Personnel" (1 / 10),
        detailRecord "P" "D" "A" "Expense" "NonPersonnel" (1 / 10),
        detailRecord "P" "D" "A" "Expense" "Personnel" (2 / 5)]).Budget ≠
      addDouble
        (accumulatorsDouble [detailRecord "P" "D" "A" "Expense" "Personnel" (1 / 10),
          detailRecord "P" "D" "A" "Expense" "NonPersonnel" (1 / 10),
          detailRecord "P" "D" "A" "Expense" "Personnel" (2 / 5)]).Personnel
        (accumulatorsDouble [detailRecord "P" "D" "A" "Expense" "Personnel" (1 / 10),
          detailRecord "P" "D" "A" "Expense" "NonPersonnel" (1 / 10),
          detailRecord "P" "D" "A" "Expense" "Personnel" (2 / 5)]).NonPersonnel := by
  refine ⟨by decide!, by decide!, by decide!, by decide!, by decide!⟩

theorem three_fund_aggregates :
    aggregatePrograms threeFundRecords =
      [fundAggregate "P" "D" "A" 1000, fundAggregate "P" "D" "B" 500,
        fundAggregate "P" "D" "C" 250] := by
  decide!

theorem three_fund_no_throw : uploadThrows threeFundRecords = false := by decide

theorem calculate_of_programs (s : AppState) (now : String) (hp : s.programs ≠ []) :
    calculateTargetBudgets s now =
      { s with
        results := some (computeResults s.programs s.fund s.quartileChanges s.protectRevenue)
        fundProgress :=
          if s.fund ≠ allFunds then
            recordCalculation s.fundProgress s.fund
              (computeResults s.programs s.fund s.quartileChanges s.protectRevenue).summary
              s.quartileChanges now
          else s.fundProgress } := by
  have : s.programs.length ≠ 0 := by simpa using hp
  simp [calculateTargetBudgets, this]

theorem save_of_results (s : AppState) (now : String) (r : Results) (hr : s.results = some r)
    (hf : s.fund ≠ allFunds) :
    saveFundProgress s now = some { s with fundProgress := markSaved s.fundProgress s.fund now } := by
  simp [saveFundProgress, hr, hf]

theorem save_rejected_iff (s : AppState) (now : String) :
    saveFundProgress s now = none ↔ (s.results = none ∨ s.fund = allFunds) := by
  unfold saveFundProgress
  by_cases hc : s.results.isNone ∨ s.fund = allFunds
  · rw [if_pos hc]
    simpa using hc
  · rw [if_neg hc]
    simpa using hc

/-- Claim C6, evaluated where the code leaves it. `saveFundProgress` only tests that
some result exists and that a specific fund is selected. After the upload of records
with funds "A", "B" and "C": (1) a calculation for "A" followed by the selection of
"B" leaves no entry for "B", and the save is accepted and writes an entry for "B"
that is saved but not calculated; (2) after a calculation for each fund the ledger
has three entries, the confirmed clearing empties it, and a save for any of the three
funds is then accepted and writes such an entry. -/
theorem save_accepted_without_calculation :
    ((run (initialState []) [Action.upload threeFundRecords, Action.selectFund "A",
        Action.calculate "t1", Action.selectFund "B"]).fundProgress.get "B" = none ∧
      (saveFundProgress (run (initialState []) [Action.upload threeFundRecords,
          Action.selectFund "A", Action.calculate "t1", Action.selectFund "B"]) "t2").map
        (fun s => s.fundProgress.get "B") = some (some (savedOnlyEntry "t2"))) ∧
    ((run (initialState []) [Action.upload threeFundRecords, Action.selectFund "A",
        Action.calculate "t1", Action.selectFund "B", Action.calculate "t2",
        Action.selectFund "C", Action.calculate "t3"]).fundProgress.map Prod.fst
        = ["A", "B", "C"] ∧
      (run (initialState []) [Action.upload threeFundRecords, Action.selectFund "A",
        Action.calculate "t1", Action.selectFund "B", Action.calculate "t2",
        Action.selectFund "C", Action.calculate "t3", Action.clearAll true]).fundProgress = [] ∧
      ∀ F ∈ ["A", "B", "C"],
        (saveFundProgress (run (initialState []) [Action.upload threeFundRecords,
          Action.selectFund "A", Action.calculate "t1", Action.selectFund "B",
          Action.calculate "t2", Action.selectFund "C", Action.calculate "t3",
          Action.clearAll true, Action.selectFund F]) "t4").map (fun s => s.fundProgress)
        = some [(F, savedOnlyEntry "t4")]) := by
  have hA : ("A" : String) ≠ allFunds := by decide
  have hB : ("B" : String) ≠ allFunds := by decide
  have hC : ("C" : String) ≠ allFunds := by decide
  refine ⟨⟨?_, ?_⟩, ?_, ?_, ?_⟩
  · simp [run, step, initialState, three_fund_aggregates, three_fund_no_throw,
      calculate_of_programs, hA,
      recordCalculation, Dict.get, Dict.set]
  · simp [run, step, initialState, three_fund_aggregates, three_fund_no_throw,
      calculate_of_programs, hA, hB,
      recordCalculation, Dict.get, Dict.set, saveFundProgress, markSaved, savedOnlyEntry]
  · simp [run, step, initialState, three_fund_aggregates, three_fund_no_throw,
      calculate_of_programs, hA, hB, hC,
      recordCalculation, Dict.get, Dict.set]
  · simp [run, step, initialState, three_fund_aggregates, three_fund_no_throw,
      calculate_of_programs, hA, hB, hC,
      recordCalculation, Dict.get, Dict.set, clearAllProgress]
  · intro F hF
    have hF1 : F ≠ allFunds := by
      simp at hF
      rcases hF with rfl | rfl | rfl <;> decide
    simp [run, step, initialState, three_fund_aggregates, three_fund_no_throw,
      calculate_of_programs, hA, hB, hC,
      hF1, recordCalculation, Dict.get, Dict.set, clearAllProgress, saveFundProgress, markSaved,
      savedOnlyEntry]


theorem recordCalculation_get_self (prev : Dict FundProgressEntry) (fund : String)
    (summary : Summary) (qc : QuartileChanges) (now : String) :
    (recordCalculation prev fund summary qc now).get fund = some
      { calculated := true
        saved := ((prev.get fund).map (fun e => e.saved)).getD false
        lastCalculated := some now
        savedAt := none
        totalOriginal := some summary.totalOriginal
        totalTarget := some summary.totalTarget
        totalChange := some summary.totalChange
        totalChangePercent := some summary.totalChangePercent
        quartileSettings := some qc } := by
  unfold recordCalculation
  rw [Dict.get_set_self]
  cases prev.get fund <;> rfl

theorem savedFlag_recordCalculation (prev : Dict FundProgressEntry) (fund F : String)
    (summary : Summary) (qc : QuartileChanges) (now : String)
    (h : (prev.get F).map (fun e => e.saved) = some true) :
    ((recordCalculation prev fund summary qc now).get F).map (fun e => e.saved) = some true := by
  by_cases hf : fund = F
  · subst hf
    rw [recordCalculation_get_self]
    cases hg : prev.get fund with
    | none => simp [hg] at h
    | some e => simpa [hg] using h
  · unfold recordCalculation
    rw [Dict.get_set_ne _ _ _ _ hf]
    exact h

theorem savedFlag_markSaved (prev : Dict FundProgressEntry) (fund F : String) (now : String)
    (h : (prev.get F).map (fun e => e.saved) = some true) :
    ((markSaved prev fund now).get F).map (fun e => e.saved) = some true := by
  by_cases hf : fund = F
  · subst hf
    unfold markSaved
    rw [Dict.get_set_self]
    rfl
  · unfold markSaved
    rw [Dict.get_set_ne _ _ _ _ hf]
    exact h

theorem savedFlag_step (s : AppState) (a : Action) (F : String)
    (ha : a ≠ Action.clearAll true)
    (h : (s.fundProgress.get F).map (fun e => e.saved) = some true) :
    ((step s a).fundProgress.get F).map (fun e => e.saved) = some true := by
  cases a with
  | upload d =>
    show ((if uploadThrows d then s else { s with programs := aggregatePrograms d }
      ).fundProgress.get F).map _ = _
    split <;> exact h
  | selectFund f => exact h
  | setProtectRevenue b => exact h
  | setQuartileChanges qc => exact h
  | calculate now =>
    show ((calculateTargetBudgets s now).fundProgress.get F).map _ = _
    unfold calculateTargetBudgets
    by_cases hp : s.programs.length = 0
    · simpa [hp] using h
    · by_cases hf : s.fund = allFunds
      · simpa [hp, hf] using h
      · simp only [hp, if_false, ne_eq, hf, not_false_eq_true, if_true]
        exact savedFlag_recordCalculation _ _ _ _ _ _ h
  | save now =>
    show (((saveFundProgress s now).getD s).fundProgress.get F).map _ = _
    unfold saveFundProgress
    by_cases hc : s.results.isNone ∨ s.fund = allFunds
    · rw [if_pos hc]
      exact h
    · rw [if_neg hc]
      exact savedFlag_markSaved _ _ _ _ h
  | clearAll c =>
    cases c with
    | true => exact absurd rfl ha
    | false => exact h

theorem savedFlag_run (actions : List Action) (s : AppState) (F : String)
    (ha : ∀ a ∈ actions, a ≠ Action.clearAll true)
    (h : (s.fundProgress.get F).map (fun e => e.saved) = some true) :
    ((run s actions).fundProgress.get F).map (fun e => e.saved) = some true := by
  induction actions generalizing s with
  | nil => exact h
  | cons a rest ih =>
    show ((run (step s a) rest).fundProgress.get F).map _ = _
    exact ih (step s a) (fun b hb => ha b (List.mem_cons_of_mem _ hb))
      (savedFlag_step s a F (ha a (List.mem_cons_self _ _)) h)

/-- Claim C7. A calculation never clears a prior save: when programs are loaded and
a specific fund is selected, `calculateTargetBudgets` leaves for that fund an entry
with `calculated = true`, the time of the run, the summary totals of the results it
stored and the quartile percentages in effect, and with the `saved` flag the entry
had before (false when the fund had no entry); and after an accepted save for a
fund, any number of successive calculations keep `saved = true` for it. -/
theorem calculation_keeps_saved (s : AppState) (now : String) (hp : s.programs ≠ [])
    (hf : s.fund ≠ allFunds) :
    (∃ e res, (calculateTargetBudgets s now).results = some res ∧
      (calculateTargetBudgets s now).fundProgress.get s.fund = some e ∧
      e.calculated = true ∧
      e.saved = ((s.fundProgress.get s.fund).map (fun e0 => e0.saved)).getD false ∧
      e.lastCalculated = some now ∧
      e.totalOriginal = some res.summary.totalOriginal ∧
      e.totalTarget = some res.summary.totalTarget ∧
      e.totalChange = some res.summary.totalChange ∧
      e.totalChangePercent = some res.summary.totalChangePercent ∧
      e.quartileSettings = some s.quartileChanges) ∧
    (∀ (t : String) (s1 : AppState) (times : List String), saveFundProgress s t = some s1 →
      ((run s1 (times.map Action.calculate)).fundProgress.get s.fund).map (fun e => e.saved)
        = some true) := by
  constructor
  · rw [calculate_of_programs s now hp]
    simp only [hf, ne_eq, not_false_eq_true, if_true]
    exact ⟨_, _, rfl, recordCalculation_get_self _ _ _ _ _, rfl, rfl, rfl, rfl, rfl, rfl, rfl, rfl⟩
  · intro t s1 times hs
    apply savedFlag_run
    · intro a ha
      simp only [List.mem_map] at ha
      obtain ⟨x, -, rfl⟩ := ha
      exact fun h => Action.noConfusion h
    · unfold saveFundProgress at hs
      by_cases hc : s.results.isNone ∨ s.fund = allFunds
      · rw [if_pos hc] at hs
        exact Option.noConfusion hs
      · rw [if_neg hc] at hs
        have hs1 : s1.fundProgress = markSaved s.fundProgress s.fund t := by
          rw [← Option.some.inj hs]
        rw [hs1]
        unfold markSaved
        rw [Dict.get_set_self]
        rfl


/-- Claim C7 at a concrete run: records loaded and fund "A" selected, the first
calculation writes an entry that is calculated and not saved; after the save, two
further calculations leave the entry saved. -/
theorem calculation_keeps_saved_scenario :
    (∃ e, (run (initialState []) [Action.upload threeFundRecords, Action.selectFund "A",
        Action.calculate "t1"]).fundProgress.get "A" = some e ∧
      e.calculated = true ∧ e.saved = false) ∧
    ((run (initialState []) [Action.upload threeFundRecords, Action.selectFund "A",
        Action.calculate "t1", Action.save "t2", Action.calculate "t3",
        Action.calculate "t4"]).fundProgress.get "A").map (fun e => e.saved) = some true := by
  have hA : ("A" : String) ≠ allFunds := by decide
  constructor
  · have h := (calculation_keeps_saved
      (run (initialState []) [Action.upload threeFundRecords, Action.selectFund "A"]) "t1"
      (by simp [run, step, initialState, three_fund_aggregates, three_fund_no_throw]) hA).1
    obtain ⟨e, res, -, h2, h3, h4, -⟩ := h
    exact ⟨e, h2, h3, by simpa [run, step, initialState, Dict.get] using h4⟩
  · have h := (calculation_keeps_saved
      (run (initialState []) [Action.upload threeFundRecords, Action.selectFund "A",
        Action.calculate "t1"]) "t3"
      (by simp [run, step, initialState, three_fund_aggregates, three_fund_no_throw,
        calculate_of_programs])
      (by simp [run, step, initialState, three_fund_aggregates, three_fund_no_throw,
        calculate_of_programs]
          exact hA)).2
      "t2" _ ["t3", "t4"]
      (save_of_results _ "t2" _
        (by simp [run, step, initialState, three_fund_aggregates, three_fund_no_throw,
          calculate_of_programs]; rfl)
        (by simp [run, step, initialState, three_fund_aggregates, three_fund_no_throw,
          calculate_of_programs]
            exact hA))
    simpa [run, step, initialState, three_fund_aggregates, three_fund_no_throw,
      calculate_of_programs, hA,
      saveFundProgress] using h


theorem calculatedPrograms_filter (programs : List ProgramAggregate) (F : String)
    (qc : QuartileChanges) (protect : Bool) (hF : F ≠ allFunds) :
    calculatedPrograms programs F qc protect =
      (calculatedPrograms programs allFunds qc protect).filter
        (fun r => r.program.funds.contains (some F)) := by
  have hcomp : ((fun r : AllocationResult => r.program.funds.contains (some F)) ∘
      allocate qc protect) = fun p => p.funds.contains (some F) := by
    funext p
    simp [allocate]
  unfold calculatedPrograms validPrograms filterByFund
  simp only [hF, ne_eq, not_false_eq_true, if_true, not_true_eq_false, if_false]
  rw [List.filter_map, hcomp, List.filter_filter, List.filter_filter]
  congr 1
  apply List.filter_congr
  intro p _
  exact Bool.and_comm _ _

/-- Claim C8. Changing the fund filter only selects: with a non-empty program list,
for every fund name `F` (other than the sentinel) and every setting of the quartile
percentages and of `protectRevenue`, both calculations store results, the program
results with filter `F` are the program results with "All Funds" restricted to the
programs whose fund set contains `F`, in the same order and with identical entries
(aggregate, target budget, change amount, change percent), and every result carries
an aggregate of the loaded list, unchanged. -/
theorem fund_filter_only_selects (s : AppState) (F : String) (now : String)
    (hp : s.programs ≠ []) (hF : F ≠ allFunds) :
    ∃ resF resAll,
      (calculateTargetBudgets { s with fund := F } now).results = some resF ∧
      (calculateTargetBudgets { s with fund := allFunds } now).results = some resAll ∧
      resF.programs = resAll.programs.filter (fun r => r.program.funds.contains (some F)) ∧
      (∀ r ∈ resF.programs, r ∈ resAll.programs ∧ r.program ∈ s.programs ∧
        some F ∈ r.program.funds ∧
        r = allocate s.quartileChanges s.protectRevenue r.program) := by
  refine ⟨computeResults s.programs F s.quartileChanges s.protectRevenue,
    computeResults s.programs allFunds s.quartileChanges s.protectRevenue, ?_, ?_, ?_, ?_⟩
  · rw [calculate_of_programs _ now (by exact hp)]
  · rw [calculate_of_programs _ now (by exact hp)]
  · exact calculatedPrograms_filter s.programs F s.quartileChanges s.protectRevenue hF
  · intro r hr
    have hr1 : r ∈ calculatedPrograms s.programs F s.quartileChanges s.protectRevenue := hr
    have hall : r ∈ (computeResults s.programs allFunds s.quartileChanges
        s.protectRevenue).programs := by
      rw [calculatedPrograms_filter _ _ _ _ hF] at hr1
      exact (List.mem_filter.mp hr1).1
    obtain ⟨a, ha, hfund, -, rfl⟩ := mem_calculatedPrograms.mp hr1
    exact ⟨hall, ha, hfund hF, rfl⟩

/-- Claim C8 at the three-fund scenario: with the filter "A" the results are the
single result of the aggregate of fund "A", out of the three of "All Funds". -/
theorem fund_filter_only_selects_scenario :
    ∃ resF resAll,
      (calculateTargetBudgets (run (initialState []) [Action.upload threeFundRecords,
        Action.selectFund "A"]) "t1").results = some resF ∧
      (calculateTargetBudgets (run (initialState []) [Action.upload threeFundRecords,
        Action.selectFund allFunds]) "t1").results = some resAll ∧
      resF.programs = resAll.programs.filter (fun r => r.program.funds.contains (some "A")) ∧
      resF.programs.map (fun r => r.program) = [fundAggregate "P" "D" "A" 1000] ∧
      resAll.programs.length = 3 := by
  obtain ⟨resF, resAll, h1, h2, h3, -⟩ := fund_filter_only_selects
    (run (initialState []) [Action.upload threeFundRecords]) "A" "t1"
    (by simp [run, step, initialState, three_fund_aggregates, three_fund_no_throw]) (by decide)
  refine ⟨resF, resAll, h1, h2, h3, ?_, ?_⟩
  · have h1a : resF = computeResults (aggregatePrograms threeFundRecords) "A"
        (initialState []).quartileChanges (initialState []).protectRevenue := by
      rw [calculate_of_programs _ _ (by simp [run, step, initialState, three_fund_aggregates,
        three_fund_no_throw])]
        at h1
      exact (Option.some.inj h1).symm
    rw [h1a]
    simp [computeResults, calculatedPrograms, validPrograms, filterByFund, three_fund_aggregates,
      three_fund_no_throw,
      fundAggregate, allFunds, allocate]
  · have h2a : resAll = computeResults (aggregatePrograms threeFundRecords) allFunds
        (initialState []).quartileChanges (initialState []).protectRevenue := by
      rw [calculate_of_programs _ _ (by simp [run, step, initialState, three_fund_aggregates,
        three_fund_no_throw])]
        at h2
      exact (Option.some.inj h2).symm
    rw [h2a]
    simp [computeResults, calculatedPrograms, validPrograms, filterByFund, three_fund_aggregates,
      three_fund_no_throw,
      fundAggregate, allocate]


/-- Claim C9, evaluated where the code leaves it. Program "P" of department "D" has
an expense of 1000 under fund "A" and of 500 under fund "B". The aggregation keeps
one aggregate per fund, so with the filter "A" the only surviving aggregate has the
breakdown {"A": 1000}, and the rollup of department "D" has
`otherFundAllocations = 0`, not 500 (its allocation is the target 1050 of the first
quartile at +5%); without a filter the field is 0 as well. -/
theorem other_fund_allocations_scenario :
    aggregatePrograms [expenseRecord "P" "D" "A" 1000, expenseRecord "P" "D" "B" 500] =
      [fundAggregate "P" "D" "A" 1000, fundAggregate "P" "D" "B" 500] ∧
    (computeResults
        (aggregatePrograms [expenseRecord "P" "D" "A" 1000, expenseRecord "P" "D" "B" 500])
        "A" scenarioChanges true).byDepartment =
      [{ department := "D", accountingFundAllocation := 1050, otherFundAllocations := 0,
         programRevenue := 0, programCount := 1 }] ∧
    (computeResults
        (aggregatePrograms [expenseRecord "P" "D" "A" 1000, expenseRecord "P" "D" "B" 500])
        allFunds scenarioChanges true).byDepartment =
      [{ department := "D", accountingFundAllocation := 1575, otherFundAllocations := 0,
         programRevenue := 0, programCount := 2 }] := by
  refine ⟨by decide!, by decide!, by decide!⟩

theorem firstMatch_cases (q : String) (input : Label) :
    (∃ c ∈ canonicalQuartiles, firstMatch q input = Label.text c) ∨ firstMatch q input = input := by
  unfold firstMatch
  cases hf : ruleList.find? (fun r => r.1.test q) with
  | none => exact Or.inr rfl
  | some r =>
    left
    have hm : r ∈ ruleList := List.mem_of_find?_eq_some hf
    refine ⟨r.2, ?_, rfl⟩
    simp only [ruleList, List.mem_cons, List.mem_singleton, List.not_mem_nil, or_false] at hm
    rcases hm with rfl | rfl | rfl | rfl | rfl | rfl | rfl | rfl | rfl | rfl | rfl | rfl <;>
      simp [canonicalQuartiles]

/-- Claim C10 as stated fails at the numeric label 0: it is neither absent nor
empty and matches no rule, so the rule list of the claim returns it unchanged, while
`normalizeQuartile` returns `null` for it (`!quartile` is true for the number 0). -/
theorem normalizeQuartile_zero :
    normalizeQuartile (Label.number 0) = Label.null ∧
      normalizeQuartileSpec (Label.number 0) = Label.number 0 ∧
      normalizeQuartile (Label.number 0) ≠ normalizeQuartileSpec (Label.number 0) := by
  refine ⟨by decide, by decide, by decide⟩

/-- Claim C10, amended. `normalizeQuartile` gives `null` for every falsy input (absent,
the empty text, the number zero); for every other input, with `q` its lower-cased,
trimmed text, it gives the canonical identifier of the first rule that matches in
the order `q` = "1", "2", "3", "4"; `q` contains "most aligned", "more aligned",
"less aligned", "least aligned"; `q` contains "1st", "2nd", "3rd", "4th"; and the
input itself when no rule matches. So every result is one of the four canonical
identifiers, `null`, or the input. -/
theorem normalizeQuartile_first_match (quartile : Label) :
    normalizeQuartile quartile = normalizeQuartileFalsy quartile ∧
      ((∃ c ∈ canonicalQuartiles, normalizeQuartile quartile = Label.text c) ∨
        normalizeQuartile quartile = Label.null ∨ normalizeQuartile quartile = quartile) := by
  have heq : normalizeQuartile quartile = normalizeQuartileFalsy quartile := by
    unfold normalizeQuartile normalizeQuartileFalsy
    split
    · rfl
    · simp only [firstMatch, ruleList, List.find?, Rule.test]
      generalize trim (toLowerCase quartile.toText) = q
      by_cases h1 : q = "1"
      · subst h1; simp
      by_cases h2 : q = "2"
      · subst h2
        simp [show includes "2" "most aligned" = false by decide]
      by_cases h3 : q = "3"
      · subst h3
        simp [show includes "3" "most aligned" = false by decide,
          show includes "3" "more aligned" = false by decide]
      by_cases h4 : q = "4"
      · subst h4
        simp [show includes "4" "most aligned" = false by decide,
          show includes "4" "more aligned" = false by decide,
          show includes "4" "less aligned" = false by decide]
      have b1 : (q == "1") = false := by simpa using h1
      have b2 : (q == "2") = false := by simpa using h2
      have b3 : (q == "3") = false := by simpa using h3
      have b4 : (q == "4") = false := by simpa using h4
      rw [b1, b2, b3, b4]
      cases includes q "most aligned" <;> cases includes q "more aligned" <;>
        cases includes q "less aligned" <;> cases includes q "least aligned" <;>
        cases includes q "1st" <;> cases includes q "2nd" <;>
        cases includes q "3rd" <;> cases includes q "4th" <;> rfl
  refine ⟨heq, ?_⟩
  rw [heq]
  unfold normalizeQuartileFalsy
  split
  · exact Or.inr (Or.inl rfl)
  · rcases firstMatch_cases (trim (toLowerCase quartile.toText)) quartile with h | h
    · exact Or.inl h
    · exact Or.inr (Or.inr h)

theorem normalizeQuartile_examples :
    normalizeQuartile (Label.text "  Q1 - Most Aligned ") = Label.text "1st Quartile" ∧
      normalizeQuartile (Label.number 3) = Label.text "3rd Quartile" ∧
      normalizeQuartile (Label.text "4th quartile (least aligned)") = Label.text "4th Quartile" ∧
      normalizeQuartile (Label.text "2ND") = Label.text "2nd Quartile" ∧
      normalizeQuartile (Label.text "") = Label.null ∧
      normalizeQuartile (Label.text "n/a") = Label.text "n/a" ∧
      normalizeQuartile (Label.number 7) = Label.number 7 := by
  refine ⟨by decide, by decide, by decide, by decide, by decide, by decide, by decide⟩

theorem foldl_add_eq_sum {α M : Type} [AddCommMonoid M] (f : α → M) (l : List α) (a : M) :
    l.foldl (fun sum p => sum + f p) a = a + (l.map f).sum := by
  induction l generalizing a with
  | nil => simp
  | cons x t ih => simp [ih, add_assoc]

/-- Claim C11. Aggregates with a budget of exactly 0 never reach the results, with
or without a fund filter: every program in the results has a non-zero original
budget and is none of the loaded aggregates of budget 0; so its change amount is
the target minus the budget and its change percent is the change over the budget
times 100 (the branch giving 0 for a zero budget is not taken). -/
theorem zero_budget_never_survives (programs : List ProgramAggregate) (fund : String)
    (qc : QuartileChanges) (protect : Bool) :
    ∀ r ∈ (computeResults programs fund qc protect).programs,
      r.program.Budget ≠ 0 ∧
      (∀ p ∈ programs, p.Budget = 0 → r.program ≠ p) ∧
      r.changeAmount = r.targetBudget - r.program.Budget ∧
      r.changePercent = r.changeAmount / r.program.Budget * 100 := by
  intro r hr
  obtain ⟨a, -, -, hb, rfl⟩ := mem_calculatedPrograms.mp hr
  refine ⟨hb, ?_, rfl, ?_⟩
  · intro p _ hp0 hpa
    apply hb
    have : a = p := hpa
    rw [this]; exact hp0
  · simp [allocate, hb]

/-- Claim C11 at concrete aggregates: of a program of budget 0 and a program of
budget 1000, only the second is in the results, with "All Funds" and with the
filter "A". -/
theorem zero_budget_never_survives_scenario :
    ((computeResults [quartileAggregate "D" Label.null 0, quartileAggregate "D" Label.null 1000]
        allFunds scenarioChanges true).programs.map (fun r => r.program)
      = [quartileAggregate "D" Label.null 1000]) ∧
    ((computeResults [quartileAggregate "D" Label.null 0, quartileAggregate "D" Label.null 1000]
        "A" scenarioChanges true).programs.map (fun r => r.program)
      = [quartileAggregate "D" Label.null 1000]) ∧
    (allocate scenarioChanges true (quartileAggregate "D" Label.null 1000)).program.Budget ≠ 0 := by
  have hA : ("A" : String) ≠ allFunds := by decide
  have hm : allocate scenarioChanges true (quartileAggregate "D" Label.null 1000) ∈
      (computeResults [quartileAggregate "D" Label.null 0, quartileAggregate "D" Label.null 1000]
        allFunds scenarioChanges true).programs := by
    simp [computeResults, calculatedPrograms, validPrograms, filterByFund, quartileAggregate]
  refine ⟨?_, ?_, (zero_budget_never_survives _ _ _ _ _ hm).1⟩
  · simp [computeResults, calculatedPrograms, validPrograms, filterByFund, quartileAggregate,
      allocate]
  · simp [computeResults, calculatedPrograms, validPrograms, filterByFund, quartileAggregate,
      allocate, hA]

theorem quartileRollups_eq (calculated : List AllocationResult) :
    quartileRollups calculated =
      [("1st Quartile", quartileRollup calculated "1st Quartile"),
       ("2nd Quartile", quartileRollup calculated "2nd Quartile"),
       ("3rd Quartile", quartileRollup calculated "3rd Quartile"),
       ("4th Quartile", quartileRollup calculated "4th Quartile")] := by
  simp [quartileRollups, canonicalQuartiles, Dict.set]

theorem quartileRollups_get (calculated : List AllocationResult) (q : String)
    (hq : q ∈ canonicalQuartiles) :
    (quartileRollups calculated).get q = some (quartileRollup calculated q) := by
  rw [quartileRollups_eq]
  simp only [canonicalQuartiles, List.mem_cons, List.mem_singleton, List.not_mem_nil,
    or_false] at hq
  rcases hq with rfl | rfl | rfl | rfl <;> simp [Dict.get]

/-- Claim C12. Whenever the program list is non-empty, `calculateTargetBudgets`
stores results whose `byQuartile` has exactly four entries, keyed by the four
canonical quartile identifiers in their order, whatever quartiles occur among the
surviving programs (also when none survives); the entry of quartile `q` has for
`count`, `originalBudget` and `targetBudget` the number, the budget sum and the
target sum of the surviving programs whose quartile is `q`, for `change` their
difference, and a `changePercent` of 0 when the budget sum is 0. -/
theorem four_quartile_entries (s : AppState) (now : String) (hp : s.programs ≠ []) :
    ∃ res, (calculateTargetBudgets s now).results = some res ∧
      res.byQuartile.map Prod.fst = canonicalQuartiles ∧
      res.byQuartile.length = 4 ∧
      ∀ q ∈ canonicalQuartiles, ∃ e, res.byQuartile.get q = some e ∧
        e.count = (res.programs.filter (fun r => r.program.Quartile = Label.text q)).length ∧
        e.originalBudget = ((res.programs.filter
          (fun r => r.program.Quartile = Label.text q)).map (fun r => r.program.Budget)).sum ∧
        e.targetBudget = ((res.programs.filter
          (fun r => r.program.Quartile = Label.text q)).map (fun r => r.targetBudget)).sum ∧
        e.change = e.targetBudget - e.originalBudget ∧
        (e.originalBudget = 0 → e.changePercent = 0) := by
  refine ⟨computeResults s.programs s.fund s.quartileChanges s.protectRevenue, ?_, ?_, ?_, ?_⟩
  · rw [calculate_of_programs s now hp]
  · simp [computeResults, quartileRollups_eq, canonicalQuartiles]
  · simp [computeResults, quartileRollups_eq]
  · intro q hq
    refine ⟨_, quartileRollups_get _ q hq, rfl, ?_, ?_, rfl, ?_⟩
    · simp [quartileRollup, foldl_add_eq_sum, computeResults]
    · simp [quartileRollup, foldl_add_eq_sum, computeResults]
    · intro h0
      simp only [quartileRollup] at h0 ⊢
      rw [if_neg (not_not.mpr h0)]

/-- Claim C12 at a run where no program survives the filter: the records have the
funds "A", "B" and "C", the filter is "Z"; the results have no program and
`byQuartile` still has its four entries, each with count 0, sums 0 and percent 0. -/
theorem four_quartile_entries_scenario :
    ∃ res, (calculateTargetBudgets (run (initialState []) [Action.upload threeFundRecords,
        Action.selectFund "Z"]) "t1").results = some res ∧
      res.programs = [] ∧
      res.byQuartile =
        [("1st Quartile", { count := 0, originalBudget := 0, targetBudget := 0, change := 0,
                            changePercent := 0 }),
         ("2nd Quartile", { count := 0, originalBudget := 0, targetBudget := 0, change := 0,
                            changePercent := 0 }),
         ("3rd Quartile", { count := 0, originalBudget := 0, targetBudget := 0, change := 0,
                            changePercent := 0 }),
         ("4th Quartile", { count := 0, originalBudget := 0, targetBudget := 0, change := 0,
                            changePercent := 0 })] := by
  have hZ : ("Z" : String) ≠ allFunds := by decide
  obtain ⟨res, h1, -⟩ := four_quartile_entries
    (run (initialState []) [Action.upload threeFundRecords, Action.selectFund "Z"]) "t1"
    (by simp [run, step, initialState, three_fund_aggregates, three_fund_no_throw])
  have hres : res = computeResults (aggregatePrograms threeFundRecords) "Z"
      (initialState []).quartileChanges (initialState []).protectRevenue := by
    rw [calculate_of_programs _ _ (by simp [run, step, initialState, three_fund_aggregates,
      three_fund_no_throw])]
      at h1
    exact (Option.some.inj h1).symm
  have hprog : res.programs = [] := by
    rw [hres]
    simp [computeResults, calculatedPrograms, validPrograms, filterByFund,
      three_fund_aggregates, three_fund_no_throw, fundAggregate, hZ]
  refine ⟨res, h1, hprog, ?_⟩
  have hq : res.byQuartile = quartileRollups res.programs := by rw [hres]; rfl
  rw [hq, hprog, quartileRollups_eq]
  simp [quartileRollup]

theorem Dict.mem_set {α : Type} (d : Dict α) (k : String) (v : α) (kp : String × α)
    (h : kp ∈ d.set k v) : kp = (k, v) ∨ kp ∈ d := by
  induction d with
  | nil => simpa [Dict.set] using h
  | cons e t ih =>
    obtain ⟨k1, v1⟩ := e
    by_cases hk : k1 = k
    · simp only [Dict.set, hk, if_true, List.mem_cons] at h ⊢
      rcases h with h | h
      · exact Or.inl h
      · exact Or.inr (Or.inr h)
    · simp only [Dict.set, hk, if_false, List.mem_cons] at h ⊢
      rcases h with h | h
      · exact Or.inr (Or.inl h)
      · rcases ih h with h1 | h1
        · exact Or.inl h1
        · exact Or.inr (Or.inr h1)

theorem Dict.mem_of_get {α : Type} (d : Dict α) (k : String) (v : α)
    (h : d.get k = some v) : (k, v) ∈ d := by
  induction d with
  | nil => simp [Dict.get] at h
  | cons e t ih =>
    obtain ⟨k1, v1⟩ := e
    by_cases hk : k1 = k
    · simp only [Dict.get, hk, if_true, Option.some.injEq] at h
      simp [hk, h]
    · simp only [Dict.get, hk, if_false] at h
      exact List.mem_cons_of_mem _ (ih h)

theorem accumulate_quartile_score (p : ProgramAggregate) (row : DetailRecord) :
    (accumulate p row).Quartile = p.Quartile ∧ (accumulate p row).FinalScore = p.FinalScore := by
  unfold accumulate
  by_cases he : row.AcctType = "Expense"
  · by_cases hp : row.CostType = "Personnel"
    · simp [he, hp]
    · by_cases hn : row.CostType = "NonPersonnel"
      · simp [he, hp, hn]
      · simp [he, hp, hn]
  · by_cases hr : row.AcctType = "Revenue"
    · simp [he, hr]
    · simp [he, hr]

theorem buildProgramMap_snoc (records : List DetailRecord) (row : DetailRecord) :
    buildProgramMap (records ++ [row]) = addRecord (buildProgramMap records) row := by
  simp [buildProgramMap, List.foldl_append]

theorem buildProgramMap_first (records : List DetailRecord) :
    (∀ kp ∈ buildProgramMap records, ∃ row, records.find? (filedUnder kp.1) = some row ∧
        kp.2.Quartile = normalizeQuartile row.Quartile ∧ kp.2.FinalScore = row.FinalScore) ∧
    (∀ k, (buildProgramMap records).get k = none →
        ∀ r ∈ records, filedUnder k r = false) := by
  induction records using List.reverseRecOn with
  | nil =>
    constructor
    · intro kp h
      simp [buildProgramMap] at h
    · intro k _ r hr
      simp at hr
  | append_singleton l a ih =>
    obtain ⟨ih1, ih2⟩ := ih
    rw [buildProgramMap_snoc]
    by_cases hid : a.program_id = ""
    · have hadd : addRecord (buildProgramMap l) a = buildProgramMap l := by
        simp [addRecord, hid]
      have hfa : ∀ k, filedUnder k a = false := by
        intro k; simp [filedUnder, hid]
      rw [hadd]
      constructor
      · intro kp h
        obtain ⟨row, h1, h2⟩ := ih1 kp h
        exact ⟨row, by simp [List.find?_append, h1], h2⟩
      · intro k hk r hr
        rcases List.mem_append.mp hr with h | h
        · exact ih2 k hk r h
        · rw [List.mem_singleton.mp h]; exact hfa k
    · have hfa : filedUnder (recordKey a) a = true := by simp [filedUnder, hid]
      have hadd : addRecord (buildProgramMap l) a =
          (buildProgramMap l).set (recordKey a)
            (accumulate (match (buildProgramMap l).get (recordKey a) with
              | some p => p
              | none => newAggregate a) a) := by
        simp [addRecord, hid]
      rw [hadd]
      constructor
      · intro kp h
        rcases Dict.mem_set _ _ _ _ h with h | h
        · subst h
          cases hg : (buildProgramMap l).get (recordKey a) with
          | some p =>
            obtain ⟨row, h1, h2, h3⟩ := ih1 (recordKey a, p) (Dict.mem_of_get _ _ _ hg)
            refine ⟨row, by simp [List.find?_append, h1], ?_, ?_⟩
            · exact (accumulate_quartile_score p a).1.trans h2
            · exact (accumulate_quartile_score p a).2.trans h3
          | none =>
            have hnone : l.find? (filedUnder (recordKey a)) = none := by
              rw [List.find?_eq_none]
              intro r hr
              simp [ih2 (recordKey a) hg r hr]
            refine ⟨a, by simp [List.find?_append, hnone, hfa], ?_, ?_⟩
            · exact (accumulate_quartile_score _ a).1
            · exact (accumulate_quartile_score _ a).2
        · obtain ⟨row, h1, h2⟩ := ih1 kp h
          exact ⟨row, by simp [List.find?_append, h1], h2⟩
      · intro k hk r hr
        have hne : recordKey a ≠ k := by
          intro e
          rw [e, Dict.get_set_self] at hk
          exact Option.noConfusion hk
        rw [Dict.get_set_ne _ _ _ _ hne] at hk
        rcases List.mem_append.mp hr with h | h
        · exact ih2 k hk r h
        · rw [List.mem_singleton.mp h]
          simp [filedUnder, hne]

/-- Claim C13. First record wins: for every sequence of detail records, every
aggregate produced is stored under a key, and its `Quartile` is `normalizeQuartile`
of the quartile label of the first record of the sequence filed under that key (the
first record with a program identifier whose key it is), and its `Final Score` is
the score of that record; later records of the same key do not change them. -/
theorem first_record_wins (records : List DetailRecord) :
    ∀ p ∈ aggregatePrograms records, ∃ key row,
      (key, p) ∈ buildProgramMap records ∧
      records.find? (filedUnder key) = some row ∧
      row ∈ records ∧ row.program_id ≠ "" ∧ recordKey row = key ∧
      p.Quartile = normalizeQuartile row.Quartile ∧ p.FinalScore = row.FinalScore := by
  intro p hp
  simp only [aggregatePrograms, Dict.values, List.mem_map] at hp
  obtain ⟨kp, hkp, rfl⟩ := hp
  obtain ⟨row, h1, h2, h3⟩ := (buildProgramMap_first records).1 kp hkp
  have hf : filedUnder kp.1 row = true := List.find?_some h1
  have hmem : row ∈ records := List.mem_of_find?_eq_some h1
  simp only [filedUnder, decide_eq_true_eq] at hf
  exact ⟨kp.1, row, hkp, h1, hmem, hf.1, hf.2, h2, h3⟩

/-- Claim C13 at concrete records: three records of one key with the labels
"Least Aligned" (score 10), 1 (score 90) and "2nd" (score 50) give one aggregate
with the quartile "4th Quartile" and the score 10 of the first record. -/
theorem first_record_wins_scenario :
    ∃ p, aggregatePrograms [labelledRecord (Label.text "Least Aligned") 10 100,
        labelledRecord (Label.number 1) 90 200, labelledRecord (Label.text "2nd") 50 300] = [p] ∧
      p.Quartile = Label.text "4th Quartile" ∧ p.FinalScore = 10 ∧ p.Budget = 600 := by
  have hagg : aggregatePrograms [labelledRecord (Label.text "Least Aligned") 10 100,
        labelledRecord (Label.number 1) 90 200, labelledRecord (Label.text "2nd") 50 300] =
      [{ fundAggregate "P" "D" "A" 600 with
          Quartile := normalizeQuartile (Label.text "Least Aligned"), FinalScore := 10 }] := by
    decide!
  refine ⟨_, hagg, ?_, ?_, ?_⟩
  · obtain ⟨key, row, -, hfind, -, -, -, hq, -⟩ := first_record_wins _ _
      (by rw [hagg]; exact List.mem_singleton.mpr rfl)
    have hrow : row = labelledRecord (Label.text "Least Aligned") 10 100 := by
      have hk : filedUnder key (labelledRecord (Label.text "Least Aligned") 10 100) = true := by
        have hf := List.find?_some hfind
        have hmem := List.mem_of_find?_eq_some hfind
        simp only [filedUnder, decide_eq_true_eq] at hf ⊢
        simp only [List.mem_cons, List.mem_singleton, List.not_mem_nil, or_false] at hmem
        rcases hmem with rfl | rfl | rfl <;> exact ⟨by decide, hf.2⟩
      simp only [List.find?, hk] at hfind
      exact (Option.some.inj hfind).symm
    have hn : normalizeQuartile (Label.text "Least Aligned") = Label.text "4th Quartile" := by
      decide
    rw [hq, hrow]
    exact hn
  · rfl
  · simp [fundAggregate]

theorem digitChar_ne_space (k : Nat) (h : k < 10) : Nat.digitChar k ≠ ' ' := by
  interval_cases k <;> decide

theorem toDigitsCore_no_space (fuel : Nat) :
    ∀ (n : Nat) (ds : List Char), (∀ c ∈ ds, c ≠ ' ') →
      ∀ c ∈ Nat.toDigitsCore 10 fuel n ds, c ≠ ' ' := by
  induction fuel with
  | zero => intro n ds hds c hc; exact hds c (by simpa [Nat.toDigitsCore] using hc)
  | succ f ih =>
    intro n ds hds c hc
    have hcons : ∀ x ∈ Nat.digitChar (n % 10) :: ds, x ≠ ' ' := by
      intro x hx
      rcases List.mem_cons.mp hx with h | h
      · rw [h]; exact digitChar_ne_space _ (Nat.mod_lt _ (by decide))
      · exact hds x h
    unfold Nat.toDigitsCore at hc
    by_cases h0 : n / 10 = 0
    · simp only [h0, if_true] at hc
      exact hcons c hc
    · simp only [h0, if_false] at hc
      exact ih _ _ hcons c hc

theorem nat_repr_no_space (m : Nat) : ' ' ∉ (Nat.repr m).data := by
  intro h
  have h1 : ' ' ∈ Nat.toDigits 10 m := by
    simpa [Nat.repr, List.asString] using h
  exact toDigitsCore_no_space _ _ [] (by simp) ' ' h1 rfl

theorem int_text_no_space (n : Int) : ' ' ∉ (toString n).data := by
  cases n with
  | ofNat m => exact nat_repr_no_space m
  | negSucc m =>
    intro h
    have h1 : ' ' ∈ ("-" ++ Nat.repr (Nat.succ m)).data := h
    rw [String.data_append] at h1
    rcases List.mem_append.mp h1 with h2 | h2
    · simp at h2
    · exact nat_repr_no_space _ h2

theorem get_of_not_canonical (qc : QuartileChanges) (l : Label)
    (hl : ∀ c ∈ canonicalQuartiles, l ≠ Label.text c) : qc.get l = none := by
  have hne : ∀ c ∈ canonicalQuartiles, l.toText ≠ c := by
    intro c hc e
    cases l with
    | null =>
      simp only [canonicalQuartiles, List.mem_cons, List.mem_singleton, List.not_mem_nil,
        or_false] at hc
      rcases hc with rfl | rfl | rfl | rfl <;> exact absurd e (by decide)
    | text s => exact hl c hc (by rw [← e]; rfl)
    | number n =>
      have hsp : ' ' ∈ c.data := by
        simp only [canonicalQuartiles, List.mem_cons, List.mem_singleton, List.not_mem_nil,
          or_false] at hc
        rcases hc with rfl | rfl | rfl | rfl <;> decide
      apply int_text_no_space n
      have e1 : toString n = c := e
      rw [e1]; exact hsp
  have h1 := hne "1st Quartile" (by simp [canonicalQuartiles])
  have h2 := hne "2nd Quartile" (by simp [canonicalQuartiles])
  have h3 := hne "3rd Quartile" (by simp [canonicalQuartiles])
  have h4 := hne "4th Quartile" (by simp [canonicalQuartiles])
  simp [QuartileChanges.get, h1, h2, h3, h4]

theorem quartileChangeOf_of_not_canonical (qc : QuartileChanges) (l : Label)
    (hl : ∀ c ∈ canonicalQuartiles, l ≠ Label.text c) (hi : l.toText ∉ inheritedNames) :
    quartileChangeOf qc l = 0 := by
  simp [quartileChangeOf, get_of_not_canonical qc l hl, hi]

theorem quartileChangeOf_of_inherited (qc : QuartileChanges) (l : Label)
    (hi : l.toText ∈ inheritedNames) : quartileChangeOf qc l = JSVal.text := by
  have hne : ∀ c ∈ canonicalQuartiles, l.toText ≠ c := by
    intro c hc e
    rw [e] at hi
    simp only [canonicalQuartiles, List.mem_cons, List.mem_singleton, List.not_mem_nil,
      or_false] at hc
    rcases hc with rfl | rfl | rfl | rfl <;> exact absurd hi (by decide)
  have h1 := hne "1st Quartile" (by simp [canonicalQuartiles])
  have h2 := hne "2nd Quartile" (by simp [canonicalQuartiles])
  have h3 := hne "3rd Quartile" (by simp [canonicalQuartiles])
  have h4 := hne "4th Quartile" (by simp [canonicalQuartiles])
  simp [quartileChangeOf, QuartileChanges.get, h1, h2, h3, h4, hi]

theorem addOtherFunds_fields (fund : String) (fb : Dict JSVal) (d : DepartmentRollup) :
    (addOtherFunds fund d fb).department = d.department ∧
      (addOtherFunds fund d fb).accountingFundAllocation = d.accountingFundAllocation ∧
      (addOtherFunds fund d fb).programRevenue = d.programRevenue ∧
      (addOtherFunds fund d fb).programCount = d.programCount := by
  unfold addOtherFunds
  induction fb generalizing d with
  | nil => simp
  | cons e t ih =>
    simp only [List.foldl_cons]
    by_cases h : e.1 = fund
    · simpa [h] using ih d
    · simpa [h] using ih { d with otherFundAllocations := d.otherFundAllocations + e.2 }

theorem updateDepartment_fields (fund : String) (d : DepartmentRollup) (r : AllocationResult) :
    (updateDepartment fund d r).department = d.department ∧
      (updateDepartment fund d r).accountingFundAllocation
        = d.accountingFundAllocation + r.targetBudget ∧
      (updateDepartment fund d r).programRevenue = d.programRevenue + r.program.Revenue ∧
      (updateDepartment fund d r).programCount = d.programCount + 1 := by
  unfold updateDepartment
  by_cases hf : fund = allFunds <;>
    simp [hf, (addOtherFunds_fields _ _ _).1, (addOtherFunds_fields _ _ _).2.1,
      (addOtherFunds_fields _ _ _).2.2.1, (addOtherFunds_fields _ _ _).2.2.2]

theorem addToDepartment_inherited (fund : String) (m : Dict DepartmentRollup)
    (r : AllocationResult) (hi : r.program.Department ∈ inheritedNames)
    (hg : m.get r.program.Department = none) : addToDepartment fund m r = m := by
  simp [addToDepartment, Dict.read, hg, hi]

theorem addToDepartment_eq (fund : String) (m : Dict DepartmentRollup) (r : AllocationResult)
    (hi : r.program.Department ∉ inheritedNames) :
    ∃ d, addToDepartment fund m r = m.set r.program.Department d ∧
      d.department = ((m.get r.program.Department).map (fun x => x.department)).getD
        r.program.Department ∧
      d.accountingFundAllocation =
        ((m.get r.program.Department).map (fun x => x.accountingFundAllocation)).getD 0
          + r.targetBudget ∧
      d.programRevenue =
        ((m.get r.program.Department).map (fun x => x.programRevenue)).getD 0
          + r.program.Revenue ∧
      d.programCount =
        ((m.get r.program.Department).map (fun x => x.programCount)).getD 0 + 1 := by
  cases hg : m.get r.program.Department with
  | some d0 =>
    refine ⟨updateDepartment fund d0 r, by simp [addToDepartment, Dict.read, hg], ?_, ?_, ?_, ?_⟩
    · simpa using (updateDepartment_fields fund d0 r).1
    · simpa using (updateDepartment_fields fund d0 r).2.1
    · simpa using (updateDepartment_fields fund d0 r).2.2.1
    · simpa using (updateDepartment_fields fund d0 r).2.2.2
  | none =>
    refine ⟨updateDepartment fund
      { department := r.program.Department, accountingFundAllocation := 0,
        otherFundAllocations := 0, programRevenue := 0, programCount := 0 } r,
      by simp [addToDepartment, Dict.read, hg, hi], ?_, ?_, ?_, ?_⟩
    · rw [(updateDepartment_fields fund _ r).1]; simp
    · rw [(updateDepartment_fields fund _ r).2.1]; simp
    · rw [(updateDepartment_fields fund _ r).2.2.1]; simp
    · rw [(updateDepartment_fields fund _ r).2.2.2]; simp

theorem buildDepartmentMap_snoc (fund : String) (l : List AllocationResult)
    (r : AllocationResult) :
    buildDepartmentMap fund (l ++ [r]) = addToDepartment fund (buildDepartmentMap fund l) r := by
  simp [buildDepartmentMap, List.foldl_append]

theorem buildDepartmentMap_get (fund : String) (l : List AllocationResult) :
    (∀ D d, (buildDepartmentMap fund l).get D = some d →
      D ∉ inheritedNames ∧ d.department = D ∧
      d.accountingFundAllocation =
        ((l.filter (fun r => r.program.Department = D)).map (fun r => r.targetBudget)).sum ∧
      d.programRevenue =
        ((l.filter (fun r => r.program.Department = D)).map (fun r => r.program.Revenue)).sum ∧
      d.programCount = (l.filter (fun r => r.program.Department = D)).length) ∧
    (∀ D, (buildDepartmentMap fund l).get D = none →
      ∀ r ∈ l, r.program.Department = D → D ∈ inheritedNames) := by
  induction l using List.reverseRecOn with
  | nil =>
    constructor
    · intro D d h
      simp [buildDepartmentMap, Dict.get] at h
    · intro D _ r hr
      simp at hr
  | append_singleton l a ih =>
    obtain ⟨ih1, ih2⟩ := ih
    by_cases hi : a.program.Department ∈ inheritedNames
    · have hnone : (buildDepartmentMap fund l).get a.program.Department = none := by
        cases hg : (buildDepartmentMap fund l).get a.program.Department with
        | none => rfl
        | some d0 => exact absurd hi (ih1 _ d0 hg).1
      rw [buildDepartmentMap_snoc, addToDepartment_inherited fund _ a hi hnone]
      constructor
      · intro D d h
        obtain ⟨g0, g1, g2, g3, g4⟩ := ih1 D d h
        have hD : a.program.Department ≠ D := by
          intro e; rw [e] at hi; exact g0 hi
        refine ⟨g0, g1, ?_, ?_, ?_⟩
        · rw [g2]; simp [List.filter_append, hD]
        · rw [g3]; simp [List.filter_append, hD]
        · rw [g4]; simp [List.filter_append, hD]
      · intro D h r hr0 hrD
        rcases List.mem_append.mp hr0 with h1 | h1
        · exact ih2 D h r h1 hrD
        · rw [List.mem_singleton.mp h1] at hrD
          rw [← hrD]; exact hi
    · obtain ⟨d2, hset, hd, ha, hr, hc⟩ :=
        addToDepartment_eq fund (buildDepartmentMap fund l) a hi
      rw [buildDepartmentMap_snoc, hset]
      constructor
      · intro D d h
        by_cases hD : a.program.Department = D
        · subst hD
          rw [Dict.get_set_self] at h
          have hdd : d2 = d := Option.some.inj h
          subst hdd
          cases hg : (buildDepartmentMap fund l).get a.program.Department with
          | some d0 =>
            obtain ⟨-, g1, g2, g3, g4⟩ := ih1 _ d0 hg
            rw [hg] at hd ha hr hc
            simp only [Option.map_some', Option.getD_some] at hd ha hr hc
            refine ⟨hi, hd.trans g1, ?_, ?_, ?_⟩
            · rw [ha, g2]; simp [List.filter_append]
            · rw [hr, g3]; simp [List.filter_append]
            · rw [hc, g4]; simp [List.filter_append]
          | none =>
            have hnil : l.filter (fun r => r.program.Department = a.program.Department) = [] := by
              rw [List.filter_eq_nil_iff]
              intro r hr0
              have := fun e => hi (ih2 _ hg r hr0 e)
              simpa using this
            rw [hg] at hd ha hr hc
            simp only [Option.map_none', Option.getD_none] at hd ha hr hc
            refine ⟨hi, hd, ?_, ?_, ?_⟩
            · rw [ha]; simp [List.filter_append, hnil]
            · rw [hr]; simp [List.filter_append, hnil]
            · rw [hc]; simp [List.filter_append, hnil]
        · rw [Dict.get_set_ne _ _ _ _ hD] at h
          obtain ⟨g0, g1, g2, g3, g4⟩ := ih1 D d h
          refine ⟨g0, g1, ?_, ?_, ?_⟩
          · rw [g2]; simp [List.filter_append, hD]
          · rw [g3]; simp [List.filter_append, hD]
          · rw [g4]; simp [List.filter_append, hD]
      · intro D h r hr0 hrD
        have hD : a.program.Department ≠ D := by
          intro e
          rw [e, Dict.get_set_self] at h
          exact Option.noConfusion h
        rw [Dict.get_set_ne _ _ _ _ hD] at h
        rcases List.mem_append.mp hr0 with h1 | h1
        · exact ih2 D h r h1 hrD
        · rw [List.mem_singleton.mp h1] at hrD
          exact absurd hrD hD

theorem Dict.sum_set_add {α M : Type} [AddCommMonoid M] (f : α → M) (d : Dict α) (k : String)
    (v : α) (x : M) (hv : f v = ((d.get k).map f).getD 0 + x) :
    ((d.set k v).map (fun e => f e.2)).sum = (d.map (fun e => f e.2)).sum + x := by
  induction d with
  | nil => simpa [Dict.set, Dict.get] using hv
  | cons e t ih =>
    obtain ⟨k1, v1⟩ := e
    by_cases h : k1 = k
    · simp only [Dict.get, h, if_true, Option.map_some', Option.getD_some] at hv
      simp only [Dict.set, h, if_true, List.map_cons, List.sum_cons, hv]
      rw [add_assoc, add_assoc, add_comm x]
    · simp only [Dict.get, h, if_false] at hv
      simp only [Dict.set, h, if_false, List.map_cons, List.sum_cons]
      rw [ih hv, add_assoc]

theorem buildDepartmentMap_sums (fund : String) (l : List AllocationResult) :
    ((buildDepartmentMap fund l).map (fun e => e.2.accountingFundAllocation)).sum =
        ((l.filter (fun r => decide (r.program.Department ∉ inheritedNames))).map
          (fun r => r.targetBudget)).sum ∧
      ((buildDepartmentMap fund l).map (fun e => e.2.programCount)).sum =
        (l.filter (fun r => decide (r.program.Department ∉ inheritedNames))).length := by
  induction l using List.reverseRecOn with
  | nil => simp [buildDepartmentMap]
  | append_singleton l a ih =>
    by_cases hi : a.program.Department ∈ inheritedNames
    · have hnone : (buildDepartmentMap fund l).get a.program.Department = none := by
        cases hg : (buildDepartmentMap fund l).get a.program.Department with
        | none => rfl
        | some d0 => exact absurd hi ((buildDepartmentMap_get fund l).1 _ d0 hg).1
      rw [buildDepartmentMap_snoc, addToDepartment_inherited fund _ a hi hnone]
      simpa [List.filter_append, hi] using ih
    · obtain ⟨d2, hset, -, ha, -, hc⟩ :=
        addToDepartment_eq fund (buildDepartmentMap fund l) a hi
      rw [buildDepartmentMap_snoc, hset]
      constructor
      · rw [Dict.sum_set_add (fun x : DepartmentRollup => x.accountingFundAllocation) _ _ _ _ ha,
          ih.1]
        simp [List.filter_append, hi]
      · rw [Dict.sum_set_add (fun x : DepartmentRollup => x.programCount) _ _ _ _ hc, ih.2]
        simp [List.filter_append, hi]

theorem JSVal.sub_add_sub (a s : JSVal) (b c : ℚ) :
    (a - JSVal.num b) + (s - JSVal.num c) = (a + s) - JSVal.num (b + c) := by
  cases a <;> cases s <;> first | rfl | exact congrArg JSVal.num (by ring)

theorem sum_map_sub_eq {α : Type} (f : α → JSVal) (g : α → ℚ) (l : List α) :
    (l.map (fun x => f x - JSVal.num (g x))).sum = (l.map f).sum - JSVal.num (l.map g).sum := by
  induction l with
  | nil => exact congrArg JSVal.num (by simp)
  | cons x t ih =>
    simp only [List.map_cons, List.sum_cons, ih]
    exact JSVal.sub_add_sub _ _ _ _

theorem departmentRollups_perm (fund : String) (l : List AllocationResult) :
    (departmentRollups fund l).Perm (buildDepartmentMap fund l).values :=
  List.perm_insertionSort _ _


/-- What the department rollups cover. Whenever the program list is non-empty,
`calculateTargetBudgets` stores results in which the sum of
`accountingFundAllocation` over all department rollups is the sum of the targets of
the programs whose department is not named like an inherited member, the sum of
`programCount` is the number of those programs, and `summary.totalChange` is the
sum of the `changeAmount` of all programs. -/
theorem department_rollups_cover (s : AppState) (now : String) (hp : s.programs ≠ []) :
    ∃ res, (calculateTargetBudgets s now).results = some res ∧
      (res.byDepartment.map (fun d => d.accountingFundAllocation)).sum
        = ((res.programs.filter
            (fun r => decide (r.program.Department ∉ inheritedNames))).map
              (fun r => r.targetBudget)).sum ∧
      (res.byDepartment.map (fun d => d.programCount)).sum
        = (res.programs.filter
            (fun r => decide (r.program.Department ∉ inheritedNames))).length ∧
      res.summary.totalChange = (res.programs.map (fun r => r.changeAmount)).sum := by
  refine ⟨computeResults s.programs s.fund s.quartileChanges s.protectRevenue, ?_, ?_, ?_, ?_⟩
  · rw [calculate_of_programs s now hp]
  · have hperm := departmentRollups_perm s.fund
      (calculatedPrograms s.programs s.fund s.quartileChanges s.protectRevenue)
    have hsum := (hperm.map (fun d => d.accountingFundAllocation)).sum_eq
    have hb := (buildDepartmentMap_sums s.fund
      (calculatedPrograms s.programs s.fund s.quartileChanges s.protectRevenue)).1
    simp only [computeResults]
    rw [hsum, ← hb]
    simp only [Dict.values, List.map_map]
    rfl
  · have hperm := departmentRollups_perm s.fund
      (calculatedPrograms s.programs s.fund s.quartileChanges s.protectRevenue)
    have hsum := (hperm.map (fun d => d.programCount)).sum_eq
    have hb := (buildDepartmentMap_sums s.fund
      (calculatedPrograms s.programs s.fund s.quartileChanges s.protectRevenue)).2
    simp only [computeResults]
    rw [hsum, ← hb]
    simp only [Dict.values, List.map_map]
    rfl
  · simp only [computeResults, summarize, foldl_add_eq_sum, zero_add]
    have hchange : ∀ r ∈ calculatedPrograms s.programs s.fund s.quartileChanges
        s.protectRevenue, r.changeAmount = r.targetBudget - JSVal.num r.program.Budget := by
      intro r hr
      obtain ⟨a, -, -, -, rfl⟩ := mem_calculatedPrograms.mp hr
      rfl
    rw [List.map_congr_left hchange, sum_map_sub_eq]

/-- The partition by departments, where no department is named like an inherited
member: whenever the program list is non-empty and no program has such a
department, `calculateTargetBudgets` stores results in which the sum of
`accountingFundAllocation` over all department rollups is `summary.totalTarget`,
the sum of `programCount` is the number of programs in the results, and
`summary.totalChange` is the sum of the `changeAmount` of the programs. -/
theorem department_rollups_partition (s : AppState) (now : String) (hp : s.programs ≠ [])
    (hd : ∀ p ∈ s.programs, p.Department ∉ inheritedNames) :
    ∃ res, (calculateTargetBudgets s now).results = some res ∧
      (res.byDepartment.map (fun d => d.accountingFundAllocation)).sum
        = res.summary.totalTarget ∧
      (res.byDepartment.map (fun d => d.programCount)).sum = res.programs.length ∧
      res.summary.totalChange = (res.programs.map (fun r => r.changeAmount)).sum := by
  obtain ⟨res, h1, h2, h3, h4⟩ := department_rollups_cover s now hp
  have hres : res = computeResults s.programs s.fund s.quartileChanges s.protectRevenue := by
    rw [calculate_of_programs s now hp] at h1
    exact (Option.some.inj h1).symm
  have hall : res.programs.filter
      (fun r => decide (r.program.Department ∉ inheritedNames)) = res.programs := by
    rw [List.filter_eq_self]
    intro r hr
    rw [hres] at hr
    obtain ⟨a, ha, -, -, rfl⟩ := mem_calculatedPrograms.mp hr
    exact decide_eq_true (hd a ha)
  rw [hall] at h2 h3
  refine ⟨res, h1, ?_, h3, h4⟩
  rw [h2, hres]
  simp only [computeResults, summarize, foldl_add_eq_sum, zero_add]

/-- The partition at the three-fund scenario with "All Funds": three programs in the
results, one department rollup counting the three, its allocation the total target. -/
theorem department_rollups_partition_scenario :
    ∃ res, (calculateTargetBudgets (run (initialState []) [Action.upload threeFundRecords])
        "t1").results = some res ∧
      res.programs.length = 3 ∧
      (res.byDepartment.map (fun d => d.programCount)).sum = 3 ∧
      (res.byDepartment.map (fun d => d.accountingFundAllocation)).sum
        = res.summary.totalTarget ∧
      res.summary.totalChange = (res.programs.map (fun r => r.changeAmount)).sum := by
  have hprog : (run (initialState []) [Action.upload threeFundRecords]).programs
      = aggregatePrograms threeFundRecords := by
    simp [run, step, initialState, three_fund_no_throw]
  obtain ⟨res, h1, h2, h3, h4⟩ := department_rollups_partition
    (run (initialState []) [Action.upload threeFundRecords]) "t1"
    (by rw [hprog, three_fund_aggregates]; simp)
    (by rw [hprog, three_fund_aggregates]; decide)
  have hres : res = computeResults (aggregatePrograms threeFundRecords) allFunds
      (initialState []).quartileChanges (initialState []).protectRevenue := by
    rw [calculate_of_programs _ _ (by rw [hprog, three_fund_aggregates]; simp)] at h1
    rw [← Option.some.inj h1]
    simp [run, step, initialState, three_fund_no_throw]
  have hlen : res.programs.length = 3 := by
    rw [hres]
    simp [computeResults, calculatedPrograms, validPrograms, filterByFund,
      three_fund_aggregates, fundAggregate]
  exact ⟨res, h1, hlen, by rw [h3, hlen], h2, h4⟩

/-- Claim C15, evaluated where the code leaves it. A single expense record of 1000
whose department is "constructor" is uploaded and, with "All Funds" and the initial
percentages, calculated. The results hold one program, of department "constructor"
and target 1050, and `summary.totalTarget` is 1050; but the read of line 176 finds
the inherited member, no rollup is created, and `byDepartment` is empty: the
allocations of the rollups sum to 0, not to `summary.totalTarget`, and their
program counts sum to 0, not to the number of programs of the results. -/
theorem inherited_department_has_no_rollup :
    ∃ res, (run (initialState [])
        [Action.upload [detailRecord "P" "constructor" "A" "Expense" "Personnel" 1000],
          Action.calculate "t1"]).results = some res ∧
      res.programs.map (fun r => (r.program.Department, r.targetBudget)) =
        [("constructor", JSVal.num 1050)] ∧
      res.summary.totalTarget = JSVal.num 1050 ∧
      res.byDepartment = [] ∧
      (res.byDepartment.map (fun d => d.accountingFundAllocation)).sum
        ≠ res.summary.totalTarget ∧
      (res.byDepartment.map (fun d => d.programCount)).sum ≠ res.programs.length := by
  have hres : (run (initialState [])
        [Action.upload [detailRecord "P" "constructor" "A" "Expense" "Personnel" 1000],
          Action.calculate "t1"]).results =
      some (computeResults [fundAggregate "P" "constructor" "A" 1000] allFunds
        scenarioChanges true) := by
    decide!
  exact ⟨_, hres, by decide!, by decide!, by decide!, by decide!, by decide!⟩


/-- The fallback of line 146 where no inherited member is read. A program of the
results whose stored quartile is none of the four canonical identifiers (null, or a
label passed through by the normalizer) and names no inherited member gets a
change of 0%: its target budget is its budget, its change amount and change percent
are 0, whatever the quartile percentages and `protectRevenue`; it is in none of the
four program lists behind `byQuartile`, whose entries are those of the results
without it; its budget and target are summands of the summary totals; and, when its
department is not named like an inherited member either, they are summands of the
allocation of the rollup of its department, which counts it. -/
theorem unrecognized_quartile_unchanged (programs : List ProgramAggregate) (fund : String)
    (qc : QuartileChanges) (protect : Bool) (r : AllocationResult)
    (hr : r ∈ (computeResults programs fund qc protect).programs)
    (hq : ∀ c ∈ canonicalQuartiles, r.program.Quartile ≠ Label.text c)
    (hi : r.program.Quartile.toText ∉ inheritedNames) :
    r.targetBudget = JSVal.num r.program.Budget ∧ r.changeAmount = 0 ∧ r.changePercent = 0 ∧
    (∀ q ∈ canonicalQuartiles,
      r ∉ (computeResults programs fund qc protect).programs.filter
        (fun x => x.program.Quartile = Label.text q) ∧
      (computeResults programs fund qc protect).byQuartile.get q = some (quartileRollup
        ((computeResults programs fund qc protect).programs.filter (fun x => x ≠ r)) q)) ∧
    (computeResults programs fund qc protect).summary.totalOriginal =
      r.program.Budget + (((computeResults programs fund qc protect).programs.erase r).map
        (fun x => x.program.Budget)).sum ∧
    (computeResults programs fund qc protect).summary.totalTarget =
      r.targetBudget + (((computeResults programs fund qc protect).programs.erase r).map
        (fun x => x.targetBudget)).sum ∧
    (r.program.Department ∉ inheritedNames →
      ∃ d ∈ (computeResults programs fund qc protect).byDepartment,
        d.department = r.program.Department ∧
        d.accountingFundAllocation = r.targetBudget +
          ((((computeResults programs fund qc protect).programs.filter
            (fun x => x.program.Department = r.program.Department)).erase r).map
              (fun x => x.targetBudget)).sum ∧
        d.programCount = (((computeResults programs fund qc protect).programs.filter
            (fun x => x.program.Department = r.program.Department)).erase r).length + 1) := by
  have hr1 : r ∈ calculatedPrograms programs fund qc protect := hr
  obtain ⟨a, -, -, hb, hra⟩ := mem_calculatedPrograms.mp hr1
  have hqa : ∀ c ∈ canonicalQuartiles, a.Quartile ≠ Label.text c := by
    intro c hc; rw [← hra] at hq; exact hq c hc
  have hia : a.Quartile.toText ∉ inheritedNames := by
    rw [← hra] at hi; exact hi
  have hget : quartileChangeOf qc a.Quartile = JSVal.num 0 :=
    quartileChangeOf_of_not_canonical qc a.Quartile hqa hia
  have htarget : r.targetBudget = JSVal.num r.program.Budget := by
    rw [← hra]; simp [allocate, hget]
  have hchange : r.changeAmount = 0 := by
    rw [← hra]; simp [allocate, hget]
  have hpercent : r.changePercent = 0 := by
    rw [← hra]; simp [allocate, hget, hb]
  refine ⟨htarget, hchange, hpercent, ?_, ?_, ?_, ?_⟩
  · intro q hqc
    constructor
    · intro hmem
      have := (List.mem_filter.mp hmem).2
      exact hq q hqc (by simpa using this)
    · have hfil : ((computeResults programs fund qc protect).programs.filter
          (fun x => x ≠ r)).filter (fun x => x.program.Quartile = Label.text q) =
          (computeResults programs fund qc protect).programs.filter
            (fun x => x.program.Quartile = Label.text q) := by
        rw [List.filter_filter]
        apply List.filter_congr
        intro x _
        by_cases hx : x.program.Quartile = Label.text q
        · have hxr : x ≠ r := by
            intro e; rw [e] at hx; exact hq q hqc hx
          simp [hx, hxr]
        · simp [hx]
      show (quartileRollups _).get q = _
      rw [quartileRollups_get _ q hqc]
      simp only [quartileRollup, hfil]
      rfl
  · simp only [computeResults, summarize, foldl_add_eq_sum, zero_add]
    exact (List.sum_map_erase (fun x : AllocationResult => x.program.Budget) hr1).symm
  · simp only [computeResults, summarize, foldl_add_eq_sum, zero_add]
    exact (List.sum_map_erase (fun x : AllocationResult => x.targetBudget) hr1).symm
  · intro hd
    have hchar := buildDepartmentMap_get fund (calculatedPrograms programs fund qc protect)
    cases hg : (buildDepartmentMap fund (calculatedPrograms programs fund qc protect)).get
        r.program.Department with
    | none => exact absurd (hchar.2 _ hg r hr1 rfl) hd
    | some d =>
      obtain ⟨-, g1, g2, -, g4⟩ := hchar.1 _ d hg
      have hrf : r ∈ (calculatedPrograms programs fund qc protect).filter
          (fun x => x.program.Department = r.program.Department) :=
        List.mem_filter.mpr ⟨hr1, by simp⟩
      refine ⟨d, ?_, g1, ?_, ?_⟩
      · show d ∈ departmentRollups _ _
        exact (departmentRollups_perm _ _).mem_iff.mpr (Dict.mem_values_of_get _ _ _ hg)
      · rw [g2]
        exact (List.sum_map_erase (fun x : AllocationResult => x.targetBudget) hrf).symm
      · rw [g4]
        exact (List.length_erase_add_one hrf).symm

/-- The fallback at concrete aggregates: with the stored quartiles null, "n/a" and
"1st Quartile" in one department, the program labelled "n/a" is in the results with
target 500 = its budget, change 0 and percent 0, under the scenario percentages. -/
theorem unrecognized_quartile_unchanged_scenario :
    allocate scenarioChanges true (quartileAggregate "D" (Label.text "n/a") 500) ∈
      (computeResults [quartileAggregate "D" Label.null 1000,
        quartileAggregate "D" (Label.text "n/a") 500,
        quartileAggregate "D" (Label.text "1st Quartile") 200]
        allFunds scenarioChanges true).programs ∧
    (allocate scenarioChanges true (quartileAggregate "D" (Label.text "n/a") 500)).targetBudget
      = 500 ∧
    (allocate scenarioChanges true (quartileAggregate "D" (Label.text "n/a") 500)).changeAmount
      = 0 ∧
    (allocate scenarioChanges true (quartileAggregate "D" (Label.text "n/a") 500)).changePercent
      = 0 := by
  have hm : allocate scenarioChanges true (quartileAggregate "D" (Label.text "n/a") 500) ∈
      (computeResults [quartileAggregate "D" Label.null 1000,
        quartileAggregate "D" (Label.text "n/a") 500,
        quartileAggregate "D" (Label.text "1st Quartile") 200]
        allFunds scenarioChanges true).programs := by
    simp [computeResults, calculatedPrograms, validPrograms, filterByFund, quartileAggregate]
  have h := unrecognized_quartile_unchanged _ _ _ _ _ hm
    (by decide) (by decide)
  exact ⟨hm, by rw [h.1]; decide!, h.2.1, h.2.2.1⟩

/-- The read of line 146 at an inherited name: a program of the results whose
stored quartile names an inherited member has the target budget, the change amount
and the change percent `NaN`, whatever the quartile percentages and
`protectRevenue`. -/
theorem inherited_label_not_a_number (programs : List ProgramAggregate) (fund : String)
    (qc : QuartileChanges) (protect : Bool) (r : AllocationResult)
    (hr : r ∈ (computeResults programs fund qc protect).programs)
    (hi : r.program.Quartile.toText ∈ inheritedNames) :
    r.targetBudget = JSVal.nan ∧ r.changeAmount = JSVal.nan ∧ r.changePercent = JSVal.nan := by
  obtain ⟨a, -, -, hb, rfl⟩ := mem_calculatedPrograms.mp hr
  have hia : a.Quartile.toText ∈ inheritedNames := hi
  simp [allocate, quartileChangeOf_of_inherited qc a.Quartile hia, hb]

/-- Claim C14, evaluated where the code leaves it. A single expense record of 1000
whose quartile cell holds the text "constructor" is uploaded: the normalizer passes
the label through, so the stored quartile is none of the four canonical
identifiers. With "All Funds" and the initial percentages, line 146 reads the
inherited member of that name instead of falling back to 0: the program of the
results has the target budget, the change amount and the change percent `NaN`, not
1000, 0 and 0, and `summary.totalTarget` is `NaN`. And an expense record of 1000
with an empty quartile cell and the department "constructor" gives a program of
target 1000 that no department rollup counts. -/
theorem inherited_quartile_label_gives_nan :
    (∃ res, (run (initialState [])
        [Action.upload [labelledRecord (Label.text "constructor") 0 1000],
          Action.calculate "t1"]).results = some res ∧
      res.programs.map (fun r => (r.program.Quartile, r.program.Budget, r.targetBudget,
          r.changeAmount, r.changePercent)) =
        [(Label.text "constructor", 1000, JSVal.nan, JSVal.nan, JSVal.nan)] ∧
      (∀ c ∈ canonicalQuartiles, Label.text "constructor" ≠ Label.text c) ∧
      res.summary.totalOriginal = 1000 ∧
      res.summary.totalTarget = JSVal.nan) ∧
    (∃ res, (run (initialState [])
        [Action.upload [{ detailRecord "P" "constructor" "A" "Expense" "Personnel" 1000 with
            Quartile := Label.null }],
          Action.calculate "t1"]).results = some res ∧
      res.programs.map (fun r => (r.program.Quartile, r.program.Department, r.targetBudget,
          r.changeAmount, r.changePercent)) =
        [(Label.null, "constructor", JSVal.num 1000, JSVal.num 0, JSVal.num 0)] ∧
      res.byDepartment = []) := by
  have hres : (run (initialState [])
        [Action.upload [labelledRecord (Label.text "constructor") 0 1000],
          Action.calculate "t1"]).results =
      some (computeResults [namedAggregate "D" (Label.text "constructor")] allFunds
        scenarioChanges true) := by
    decide!
  have hres2 : (run (initialState [])
        [Action.upload [{ detailRecord "P" "constructor" "A" "Expense" "Personnel" 1000 with
            Quartile := Label.null }],
          Action.calculate "t1"]).results =
      some (computeResults [namedAggregate "constructor" Label.null] allFunds
        scenarioChanges true) := by
    decide!
  exact ⟨⟨_, hres, by decide!, by decide, by decide!, by decide!⟩,
    ⟨_, hres2, by decide!, by decide!⟩⟩

/-- Claim C16, evaluated where the code leaves it. The ledger update of a calculation
writes a fresh entry that takes over the `saved` flag of the previous entry and
nothing else. From the empty ledger, with records loaded and fund "A" selected:
after a calculation and a save the entry of "A" is saved with the save time "t2";
after one more calculation it is still saved and carries no `savedAt`. -/
theorem recalculation_drops_savedAt :
    ((run (initialState []) [Action.upload threeFundRecords, Action.selectFund "A",
        Action.calculate "t1", Action.save "t2"]).fundProgress.get "A").map
      (fun e => (e.saved, e.savedAt)) = some (true, some "t2") ∧
    ((run (initialState []) [Action.upload threeFundRecords, Action.selectFund "A",
        Action.calculate "t1", Action.save "t2", Action.calculate "t3"]).fundProgress.get
        "A").map
      (fun e => (e.calculated, e.saved, e.savedAt, e.lastCalculated))
      = some (true, true, none, some "t3") := by
  have hA : ("A" : String) ≠ allFunds := by decide
  constructor
  · simp [run, step, initialState, three_fund_aggregates, three_fund_no_throw,
      calculate_of_programs, hA, recordCalculation, Dict.get, Dict.set, saveFundProgress,
      markSaved]
  · simp [run, step, initialState, three_fund_aggregates, three_fund_no_throw,
      calculate_of_programs, hA, recordCalculation, Dict.get, Dict.set, saveFundProgress,
      markSaved]

theorem markSaved_savedAt (prev : Dict FundProgressEntry) (fund : String) (now : String) :
    ((markSaved prev fund now).get fund).map (fun e => (e.saved, e.savedAt))
      = some (true, some now) := by
  unfold markSaved
  rw [Dict.get_set_self]
  rfl

end PBB
